/-
Verification of the Lifesim banking core against its specification.

The definitions below are a shallow embedding of the banking domain of the
repository: `app/banking/services.py` (money quantization, anchor-date
calendar arithmetic, series aggregation, transaction fetching) and
`app/banking/routes.py` (the transfer / deposit / withdraw engine, batch
account opening, account closure with fee collection, and the manual
balance update handlers).  Monetary values are rationals; the Python
`Decimal.quantize(Decimal("0.01"), rounding=ROUND_HALF_UP)` is embedded as
rounding half away from zero at two fractional digits.  Database sessions
are embedded as explicit state passing: each handler returns the new state
together with the ledger entries it wrote, or an error leaving the state
untouched (mirroring validate-then-mutate plus rollback-on-failure).
-/
import Mathlib

/-! ## Money utility (`app/banking/services.py`: `quantize_amount`) -/

/-- Rounding half away from zero, the behaviour of Python's
`ROUND_HALF_UP` decimal rounding mode. -/
def roundHalfUp (x : ℚ) : ℤ :=
  if 0 ≤ x then ⌊x + 1 / 2⌋ else -⌊-x + 1 / 2⌋

/-- Embedding of `quantize_amount` from `services.py`: normalize values to two decimal
places with half-up rounding. -/
def quantize_amount (q : ℚ) : ℚ :=
  (roundHalfUp (100 * q) : ℚ) / 100

/-- A rational is a valid stored monetary amount when it is a whole number
of cents (the backing column is `Numeric(12, 2)`). -/
def IsQuantized (q : ℚ) : Prop :=
  ∃ n : ℤ, q = (n : ℚ) / 100

theorem roundHalfUp_intCast (n : ℤ) : roundHalfUp (n : ℚ) = n := by
  unfold roundHalfUp
  rcases le_or_lt 0 (n : ℚ) with h | h
  · rw [if_pos h]
    have : (n : ℚ) + 1 / 2 = 1 / 2 + (n : ℚ) := by ring
    rw [this, Int.floor_add_int]
    norm_num
  · rw [if_neg (not_le.mpr h)]
    have : -(n : ℚ) + 1 / 2 = 1 / 2 + ((-n : ℤ) : ℚ) := by push_cast; ring
    rw [this, Int.floor_add_int]
    norm_num

theorem quantize_isQuantized (q : ℚ) : IsQuantized (quantize_amount q) :=
  ⟨roundHalfUp (100 * q), rfl⟩

theorem quantize_fixed {q : ℚ} (h : IsQuantized q) : quantize_amount q = q := by
  obtain ⟨n, rfl⟩ := h
  unfold quantize_amount
  have h100 : (100 : ℚ) * ((n : ℚ) / 100) = (n : ℚ) := by ring
  rw [h100, roundHalfUp_intCast]

theorem IsQuantized.add {a b : ℚ} (ha : IsQuantized a) (hb : IsQuantized b) :
    IsQuantized (a + b) := by
  obtain ⟨m, rfl⟩ := ha
  obtain ⟨n, rfl⟩ := hb
  exact ⟨m + n, by push_cast; ring⟩

theorem IsQuantized.neg {a : ℚ} (ha : IsQuantized a) : IsQuantized (-a) := by
  obtain ⟨m, rfl⟩ := ha
  exact ⟨-m, by push_cast; ring⟩

theorem IsQuantized.sub {a b : ℚ} (ha : IsQuantized a) (hb : IsQuantized b) :
    IsQuantized (a - b) := by
  have := ha.add hb.neg
  simpa [sub_eq_add_neg] using this

theorem isQuantized_zero : IsQuantized 0 := ⟨0, by norm_num⟩

theorem quantize_idem (q : ℚ) :
    quantize_amount (quantize_amount q) = quantize_amount q :=
  quantize_fixed (quantize_isQuantized q)

/-! ## Accounts and ledger entries (`app/banking/models.py`) -/

/-- Direction tag of a ledger entry (`BankTransaction.direction`). -/
inductive Direction
  | credit
  | debit
deriving DecidableEq, Repr

/-- A `BankAccount` row as seen by the transfer engine: slug, display
name and stored balance. -/
structure Account where
  slug : String
  name : String
  balance : ℚ
deriving DecidableEq, Repr

/-- A `BankTransaction` row: owning account (by slug), display name,
description, direction and positive amount. -/
structure LedgerEntry where
  account : String
  name : String
  description : String
  direction : Direction
  amount : ℚ
deriving DecidableEq, Repr

/-! ## Transfer engine (`app/banking/routes.py`:
`_create_transfer_entries`, `_apply_transfer`) -/

/-- Embedding of `_create_transfer_entries`: ledger entries for a transfer, skipping
the cash (`"hand"`) side. -/
def create_transfer_entries (source destination : Account) (amount : ℚ) :
    List LedgerEntry :=
  let amount := quantize_amount amount
  let description :=
    "Funds moved from " ++ source.name ++ " to " ++ destination.name
  let sourceEntries : List LedgerEntry :=
    if source.slug ≠ "hand" then
      let source_description :=
        if destination.slug = "hand" then
          "Funds moved from " ++ source.name ++ " to cash"
        else description
      let source_name :=
        if destination.slug = "hand" then "Cash Withdrawal"
        else "Account Transfer"
      [⟨source.slug, source_name, source_description, Direction.debit, amount⟩]
    else []
  let destinationEntries : List LedgerEntry :=
    if destination.slug ≠ "hand" then
      let destination_description :=
        if source.slug = "hand" then
          "Wallet deposit into " ++ destination.name
        else description
      let destination_name :=
        if source.slug = "hand" then "Cash Allocation"
        else "Account Transfer"
      [⟨destination.slug, destination_name, destination_description,
        Direction.credit, amount⟩]
    else []
  sourceEntries ++ destinationEntries

/-- Embedding of `_apply_transfer`: update the two balances and produce the ledger
entries.  Returns the updated source, the updated destination, and the
entries written. -/
def apply_transfer (source destination : Account) (amount : ℚ) :
    Account × Account × List LedgerEntry :=
  let amount := quantize_amount amount
  let entries := create_transfer_entries source destination amount
  let source' : Account :=
    ⟨source.slug, source.name, quantize_amount (source.balance - amount)⟩
  let destination' : Account :=
    ⟨destination.slug, destination.name,
      quantize_amount (destination.balance + amount)⟩
  (source', destination', entries)

/-- C1: For every transfer between two accounts (including when cash is
one side) that passes validation and commits, the sum of the source and
destination balances after the operation equals the sum of their balances
before it; the transferred amount is debited from the source and credited
to the destination, both quantized to 2 decimals, and no fee is folded
into the transfer. -/
theorem C1_transfer_conservation (source destination : Account) (amount : ℚ)
    (hs : IsQuantized source.balance) (hd : IsQuantized destination.balance) :
    let r := apply_transfer source destination amount
    r.1.balance + r.2.1.balance = source.balance + destination.balance ∧
    r.1.balance = source.balance - quantize_amount amount ∧
    r.2.1.balance = destination.balance + quantize_amount amount ∧
    IsQuantized r.1.balance ∧ IsQuantized r.2.1.balance := by
  intro r
  have hq : IsQuantized (quantize_amount amount) := quantize_isQuantized amount
  have hqq : quantize_amount (quantize_amount amount) = quantize_amount amount :=
    quantize_idem amount
  have hsub : quantize_amount (source.balance - quantize_amount amount) =
      source.balance - quantize_amount amount :=
    quantize_fixed (hs.sub hq)
  have hadd : quantize_amount (destination.balance + quantize_amount amount) =
      destination.balance + quantize_amount amount :=
    quantize_fixed (hd.add hq)
  have hr1 : r.1.balance = quantize_amount (source.balance - quantize_amount amount) := rfl
  have hr2 : r.2.1.balance = quantize_amount (destination.balance + quantize_amount amount) := rfl
  rw [hr1, hr2, hsub, hadd]
  refine ⟨by ring, rfl, rfl, hs.sub hq, hd.add hq⟩

/-- Witness for C1 at concrete quantized balances. -/
theorem C1_transfer_conservation_witness :
    let source : Account := ⟨"checking", "Checking Account", 100⟩
    let destination : Account := ⟨"savings", "Savings Account", 50⟩
    let r := apply_transfer source destination 30
    r.1.balance + r.2.1.balance = source.balance + destination.balance ∧
    r.1.balance = source.balance - quantize_amount 30 ∧
    r.2.1.balance = destination.balance + quantize_amount 30 ∧
    IsQuantized r.1.balance ∧ IsQuantized r.2.1.balance :=
  C1_transfer_conservation ⟨"checking", "Checking Account", 100⟩
    ⟨"savings", "Savings Account", 50⟩ 30
    ⟨10000, by norm_num⟩ ⟨5000, by norm_num⟩

/-- C8: For every committed transfer, the cash ("hand") account never
receives a ledger entry of its own: when cash is one side, exactly one
entry is written on the non-cash account, labeled "Cash Withdrawal" for
the debit side (account to cash) or "Cash Allocation" for the credit side
(cash to account); when both sides are non-cash, exactly two entries are
written, both labeled "Account Transfer". -/
theorem C8_transfer_entry_labels (source destination : Account) (amount : ℚ)
    (h : source.slug ≠ destination.slug) :
    let entries := create_transfer_entries source destination amount
    let summary := entries.map (fun e => (e.account, e.name, e.direction, e.amount))
    (∀ e ∈ entries, e.account ≠ "hand") ∧
    (source.slug = "hand" →
      summary = [(destination.slug, "Cash Allocation", Direction.credit,
        quantize_amount amount)]) ∧
    (destination.slug = "hand" →
      summary = [(source.slug, "Cash Withdrawal", Direction.debit,
        quantize_amount amount)]) ∧
    (source.slug ≠ "hand" → destination.slug ≠ "hand" →
      summary = [(source.slug, "Account Transfer", Direction.debit,
          quantize_amount amount),
        (destination.slug, "Account Transfer", Direction.credit,
          quantize_amount amount)]) := by
  intro entries summary
  by_cases hs : source.slug = "hand" <;> by_cases hd : destination.slug = "hand"
  · exact absurd (hs.trans hd.symm) h
  · have hent : entries =
        [⟨destination.slug, "Cash Allocation",
          "Wallet deposit into " ++ destination.name, Direction.credit,
          quantize_amount amount⟩] := by
      simp [entries, create_transfer_entries, hs, hd]
    refine ⟨?_, ?_, ?_, ?_⟩
    · intro e he
      rw [hent] at he
      simp only [List.mem_singleton] at he
      subst he
      exact hd
    · intro _
      simp [summary, hent]
    · intro hcontra
      exact absurd hcontra hd
    · intro hcontra _
      exact absurd hs hcontra
  · have hent : entries =
        [⟨source.slug, "Cash Withdrawal",
          "Funds moved from " ++ source.name ++ " to cash", Direction.debit,
          quantize_amount amount⟩] := by
      simp [entries, create_transfer_entries, hs, hd]
    refine ⟨?_, ?_, ?_, ?_⟩
    · intro e he
      rw [hent] at he
      simp only [List.mem_singleton] at he
      subst he
      exact hs
    · intro hcontra
      exact absurd hcontra hs
    · intro _
      simp [summary, hent]
    · intro _ hcontra
      exact absurd hd hcontra
  · have hent : entries =
        [⟨source.slug, "Account Transfer",
          "Funds moved from " ++ source.name ++ " to " ++ destination.name,
          Direction.debit, quantize_amount amount⟩,
          ⟨destination.slug, "Account Transfer",
          "Funds moved from " ++ source.name ++ " to " ++ destination.name,
          Direction.credit, quantize_amount amount⟩] := by
      simp [entries, create_transfer_entries, hs, hd]
    refine ⟨?_, ?_, ?_, ?_⟩
    · intro e he
      rw [hent] at he
      simp only [List.mem_cons, List.mem_singleton, List.not_mem_nil,
        or_false] at he
      rcases he with he | he <;> (subst he; assumption)
    · intro hcontra
      exact absurd hcontra hs
    · intro hcontra
      exact absurd hcontra hd
    · intro _ _
      simp [summary, hent]

/-- Witness for C8 on a checking-to-savings transfer. -/
theorem C8_transfer_entry_labels_witness :
    let source : Account := ⟨"checking", "Checking Account", 100⟩
    let destination : Account := ⟨"savings", "Savings Account", 50⟩
    let entries := create_transfer_entries source destination 30
    let summary := entries.map (fun e => (e.account, e.name, e.direction, e.amount))
    (∀ e ∈ entries, e.account ≠ "hand") ∧
    (source.slug = "hand" →
      summary = [(destination.slug, "Cash Allocation", Direction.credit,
        quantize_amount 30)]) ∧
    (destination.slug = "hand" →
      summary = [(source.slug, "Cash Withdrawal", Direction.debit,
        quantize_amount 30)]) ∧
    (source.slug ≠ "hand" → destination.slug ≠ "hand" →
      summary = [(source.slug, "Account Transfer", Direction.debit,
          quantize_amount 30),
        (destination.slug, "Account Transfer", Direction.credit,
          quantize_amount 30)]) :=
  C8_transfer_entry_labels ⟨"checking", "Checking Account", 100⟩
    ⟨"savings", "Savings Account", 50⟩ 30 (by decide)

/-! ## Calendar / anchor utility (`app/banking/services.py`:
`compute_next_anchor_date`, `compute_previous_anchor_date`).  Dates are
year/month/day triples of integers; `monthLength` embeds
`calendar.monthrange(year, month)[1]` with the Gregorian leap-year rule. -/

/-- A calendar date as used by Python's `datetime.date`. -/
structure SimDate where
  year : ℤ
  month : ℤ
  day : ℤ
deriving DecidableEq, Repr

/-- Gregorian leap-year predicate (`calendar.isleap`). -/
def isLeapYear (y : ℤ) : Prop :=
  y % 4 = 0 ∧ (y % 100 ≠ 0 ∨ y % 400 = 0)

instance (y : ℤ) : Decidable (isLeapYear y) := by
  unfold isLeapYear
  infer_instance

/-- Number of days in the given month (`calendar.monthrange(y, m)[1]`). -/
def monthLength (y m : ℤ) : ℤ :=
  if m = 2 then (if isLeapYear y then 29 else 28)
  else if m = 4 ∨ m = 6 ∨ m = 9 ∨ m = 11 then 30
  else 31

/-- Comparison `a <= b` on dates (Python's `date` ordering). -/
def dateLE (a b : SimDate) : Prop :=
  a.year < b.year ∨ (a.year = b.year ∧
    (a.month < b.month ∨ (a.month = b.month ∧ a.day ≤ b.day)))

/-- Strict comparison `a < b` on dates. -/
def dateLT (a b : SimDate) : Prop :=
  a.year < b.year ∨ (a.year = b.year ∧
    (a.month < b.month ∨ (a.month = b.month ∧ a.day < b.day)))

instance (a b : SimDate) : Decidable (dateLE a b) := by
  unfold dateLE
  infer_instance

instance (a b : SimDate) : Decidable (dateLT a b) := by
  unfold dateLT
  infer_instance

/-- A structurally valid calendar date. -/
def ValidDate (d : SimDate) : Prop :=
  1 ≤ d.month ∧ d.month ≤ 12 ∧ 1 ≤ d.day ∧ d.day ≤ monthLength d.year d.month

instance (d : SimDate) : Decidable (ValidDate d) := by
  unfold ValidDate
  infer_instance

/-- Embedding of `compute_next_anchor_date`: the next anchor date for the given day of
the month, strictly after `today`. -/
def compute_next_anchor_date (anchor_day : ℤ) (today : SimDate) : SimDate :=
  let max_day := monthLength today.year today.month
  let day := min (max anchor_day 1) max_day
  let anchor : SimDate := ⟨today.year, today.month, day⟩
  if dateLE anchor today then
    let year := if today.month + 1 > 12 then today.year + 1 else today.year
    let month := if today.month + 1 > 12 then 1 else today.month + 1
    let max_day' := monthLength year month
    ⟨year, month, min (max anchor_day 1) max_day'⟩
  else anchor

/-- Embedding of `compute_previous_anchor_date`: the most recent anchor date on or
before `today`. -/
def compute_previous_anchor_date (anchor_day : ℤ) (today : SimDate) : SimDate :=
  let max_day := monthLength today.year today.month
  let day := min (max anchor_day 1) max_day
  let anchor : SimDate := ⟨today.year, today.month, day⟩
  if dateLT today anchor then
    let year := if today.month - 1 < 1 then today.year - 1 else today.year
    let month := if today.month - 1 < 1 then 12 else today.month - 1
    let max_day' := monthLength year month
    ⟨year, month, min (max anchor_day 1) max_day'⟩
  else anchor

theorem monthLength_ge (y m : ℤ) : 28 ≤ monthLength y m := by
  unfold monthLength
  split_ifs <;> norm_num

theorem monthLength_jan (y : ℤ) : monthLength y 1 = 31 := by
  norm_num [monthLength]

/-- C7: For every valid anchor day and every date d, the anchor functions
bracket d: previousAnchor(day, d) ≤ d < nextAnchor(day, d). -/
theorem C7_anchor_bracket (anchor_day : ℤ) (today : SimDate)
    (hv : ValidDate today) :
    dateLE (compute_previous_anchor_date anchor_day today) today ∧
    dateLT today (compute_next_anchor_date anchor_day today) := by
  obtain ⟨ty, tm, td⟩ := today
  constructor
  · simp only [compute_previous_anchor_date]
    split_ifs with h1 h2
    · simp only [dateLE]
      left
      omega
    · simp only [dateLE]
      refine Or.inr ⟨trivial, Or.inl ?_⟩
      omega
    · simp only [dateLT] at h1
      simp only [dateLE]
      obtain ⟨D, hD⟩ : ∃ D, min (max anchor_day 1) (monthLength ty tm) = D :=
        ⟨_, rfl⟩
      rw [hD] at h1 ⊢
      clear hD
      simp only [true_and] at h1 ⊢
      omega
  · simp only [compute_next_anchor_date]
    split_ifs with h1 h2
    · simp only [dateLT]
      left
      omega
    · simp only [dateLT]
      refine Or.inr ⟨trivial, Or.inl ?_⟩
      omega
    · simp only [dateLE] at h1
      simp only [dateLT]
      obtain ⟨D, hD⟩ : ∃ D, min (max anchor_day 1) (monthLength ty tm) = D :=
        ⟨_, rfl⟩
      rw [hD] at h1 ⊢
      clear hD
      simp only [true_and] at h1 ⊢
      omega

/-- Witness for C7 at a concrete date. -/
theorem C7_anchor_bracket_witness :
    ValidDate ⟨2024, 2, 15⟩ ∧
    (dateLE (compute_previous_anchor_date 31 ⟨2024, 2, 15⟩) ⟨2024, 2, 15⟩ ∧
      dateLT ⟨2024, 2, 15⟩ (compute_next_anchor_date 31 ⟨2024, 2, 15⟩)) :=
  ⟨by decide, C7_anchor_bracket 31 ⟨2024, 2, 15⟩ (by decide)⟩

/-- C6: For every anchor day and reference date, nextAnchor returns the
smallest date strictly after the reference date whose day-of-month equals
min(day, lastDayOfThatMonth); in particular nextAnchor(31, 2024-02-15) =
2024-02-29 and nextAnchor(31, 2023-02-15) = 2023-02-28 (anchor day clamped
to the actual month length, including February and leap years). -/
theorem C6_next_anchor_least (k : ℤ) (today : SimDate)
    (hk : 1 ≤ k) (hv : ValidDate today) :
    ValidDate (compute_next_anchor_date k today) ∧
    dateLT today (compute_next_anchor_date k today) ∧
    (compute_next_anchor_date k today).day =
      min k (monthLength (compute_next_anchor_date k today).year
        (compute_next_anchor_date k today).month) ∧
    (∀ d : SimDate, ValidDate d → dateLT today d →
      d.day = min k (monthLength d.year d.month) →
      dateLE (compute_next_anchor_date k today) d) ∧
    compute_next_anchor_date 31 ⟨2024, 2, 15⟩ = ⟨2024, 2, 29⟩ ∧
    compute_next_anchor_date 31 ⟨2023, 2, 15⟩ = ⟨2023, 2, 28⟩ := by
  obtain ⟨ty, tm, td⟩ := today
  simp only [ValidDate] at hv
  obtain ⟨h1v, h2v, h3v, h4v⟩ := hv
  have hmax : max k 1 = k := max_eq_left hk
  refine ⟨?_, ?_, ?_, ?_, by decide, by decide⟩
  · -- the next anchor is a valid calendar date
    simp only [compute_next_anchor_date, hmax]
    split_ifs with h1 h2
    · simp only [ValidDate]
      have hg := monthLength_ge (ty + 1) 1
      exact ⟨by norm_num, by norm_num, le_min hk (by omega), min_le_right _ _⟩
    · simp only [ValidDate]
      have hg := monthLength_ge ty (tm + 1)
      exact ⟨by omega, by omega, le_min hk (by omega), min_le_right _ _⟩
    · simp only [ValidDate]
      have hg := monthLength_ge ty tm
      exact ⟨h1v, h2v, le_min hk (by omega), min_le_right _ _⟩
  · -- the next anchor is strictly after today
    simp only [compute_next_anchor_date, hmax]
    split_ifs with h1 h2
    · simp only [dateLT]
      left
      omega
    · simp only [dateLT]
      refine Or.inr ⟨trivial, Or.inl ?_⟩
      omega
    · simp only [dateLE] at h1
      simp only [dateLT]
      obtain ⟨D, hD⟩ : ∃ D, min k (monthLength ty tm) = D := ⟨_, rfl⟩
      rw [hD] at h1 ⊢
      clear hD
      simp only [true_and] at h1 ⊢
      omega
  · -- the next anchor's day-of-month is the clamped anchor day
    simp only [compute_next_anchor_date, hmax]
    split_ifs with h1 h2 <;> rfl
  · -- minimality among valid dates strictly after today with clamped day
    intro d hdv hlt hdd
    obtain ⟨dy, dm, dd⟩ := d
    simp only [ValidDate] at hdv
    obtain ⟨hdm1, hdm2, hdd1, hdd2⟩ := hdv
    simp only at hdd
    simp only [dateLT] at hlt
    simp only [compute_next_anchor_date, hmax]
    split_ifs with h1 h2
    · -- anchor fell on or before today, December: next is January next year
      simp only [dateLE, true_and] at h1
      simp only [dateLE]
      by_cases hsame : dy = ty ∧ dm = tm
      · exfalso
        obtain ⟨e1, e2⟩ := hsame
        subst e1
        subst e2
        obtain ⟨D, hD⟩ : ∃ D, min k (monthLength dy dm) = D := ⟨_, rfl⟩
        rw [hD] at h1 hdd
        omega
      · by_cases hsame2 : dy = ty + 1 ∧ dm = 1
        · obtain ⟨e1, e2⟩ := hsame2
          subst e1
          subst e2
          exact Or.inr ⟨rfl, Or.inr ⟨rfl, le_of_eq hdd.symm⟩⟩
        · rcases hlt with h | ⟨he, h⟩
          · by_cases hdy : dy = ty + 1
            · refine Or.inr ⟨hdy.symm, Or.inl ?_⟩
              omega
            · left
              omega
          · rcases h with h | ⟨he2, h⟩
            · exfalso
              omega
            · exact absurd ⟨he.symm, he2.symm⟩ hsame
    · -- anchor fell on or before today: next is the following month
      simp only [dateLE, true_and] at h1
      simp only [dateLE]
      by_cases hsame : dy = ty ∧ dm = tm
      · exfalso
        obtain ⟨e1, e2⟩ := hsame
        subst e1
        subst e2
        obtain ⟨D, hD⟩ : ∃ D, min k (monthLength dy dm) = D := ⟨_, rfl⟩
        rw [hD] at h1 hdd
        omega
      · by_cases hsame2 : dy = ty ∧ dm = tm + 1
        · obtain ⟨e1, e2⟩ := hsame2
          subst e1
          subst e2
          exact Or.inr ⟨rfl, Or.inr ⟨rfl, le_of_eq hdd.symm⟩⟩
        · rcases hlt with h | ⟨he, h⟩
          · exact Or.inl h
          · rcases h with h | ⟨he2, h⟩
            · refine Or.inr ⟨he, Or.inl ?_⟩
              omega
            · exact absurd ⟨he.symm, he2.symm⟩ hsame
    · -- anchor is still ahead in today's month
      simp only [dateLE]
      by_cases hsame : dy = ty ∧ dm = tm
      · obtain ⟨e1, e2⟩ := hsame
        subst e1
        subst e2
        exact Or.inr ⟨rfl, Or.inr ⟨rfl, le_of_eq hdd.symm⟩⟩
      · rcases hlt with h | ⟨he, h⟩
        · exact Or.inl h
        · rcases h with h | ⟨he2, h⟩
          · exact Or.inr ⟨he, Or.inl h⟩
          · exact absurd ⟨he.symm, he2.symm⟩ hsame

/-- Witness for C6 at anchor day 31 from 2024-02-15. -/
theorem C6_next_anchor_least_witness :
    (1 ≤ (31 : ℤ) ∧ ValidDate ⟨2024, 2, 15⟩) ∧
    dateLT ⟨2024, 2, 15⟩ (compute_next_anchor_date 31 ⟨2024, 2, 15⟩) ∧
    compute_next_anchor_date 31 ⟨2024, 2, 15⟩ = ⟨2024, 2, 29⟩ :=
  ⟨⟨by norm_num, by decide⟩,
    (C6_next_anchor_least 31 ⟨2024, 2, 15⟩ (by norm_num) (by decide)).2.1,
    (C6_next_anchor_least 31 ⟨2024, 2, 15⟩ (by norm_num) (by decide)).2.2.2.2.1⟩

/-! ## Generic insertion sort, used to embed Python's `sorted`. -/

/-- Insert an element into a list sorted by the boolean relation `le`. -/
def insertOrd {α : Type} (le : α → α → Bool) (p : α) : List α → List α
  | [] => [p]
  | q :: rest => if le p q then p :: q :: rest else q :: insertOrd le p rest

/-- Sort a list by the boolean relation `le` (embedding of `sorted`). -/
def sortOrd {α : Type} (le : α → α → Bool) (l : List α) : List α :=
  l.foldr (insertOrd le) []

theorem insertOrd_perm {α : Type} (le : α → α → Bool) (p : α) (l : List α) :
    (insertOrd le p l).Perm (p :: l) := by
  induction l with
  | nil => exact List.Perm.refl _
  | cons q rest ih =>
    unfold insertOrd
    split
    · exact List.Perm.refl _
    · exact (ih.cons q).trans (List.Perm.swap p q rest)

theorem sortOrd_perm {α : Type} (le : α → α → Bool) (l : List α) :
    (sortOrd le l).Perm l := by
  induction l with
  | nil => exact List.Perm.refl _
  | cons a rest ih =>
    have h1 : sortOrd le (a :: rest) = insertOrd le a (sortOrd le rest) := rfl
    rw [h1]
    exact (insertOrd_perm le a (sortOrd le rest)).trans (ih.cons a)

theorem insertOrd_mem {α : Type} (le : α → α → Bool) (p x : α) (l : List α) :
    x ∈ insertOrd le p l ↔ x = p ∨ x ∈ l := by
  rw [(insertOrd_perm le p l).mem_iff]
  simp

theorem insertOrd_pairwise {α : Type} (le : α → α → Bool)
    (htot : ∀ a b, le a b = false → le b a = true)
    (htrans : ∀ a b c, le a b = true → le b c = true → le a c = true)
    (p : α) (l : List α) (h : l.Pairwise (fun a b => le a b = true)) :
    (insertOrd le p l).Pairwise (fun a b => le a b = true) := by
  induction l with
  | nil => simp [insertOrd]
  | cons q rest ih =>
    rw [List.pairwise_cons] at h
    obtain ⟨hq, hrest⟩ := h
    unfold insertOrd
    split
    case isTrue hle =>
      refine List.pairwise_cons.mpr ⟨?_, List.pairwise_cons.mpr ⟨hq, hrest⟩⟩
      intro b hb
      rcases List.mem_cons.mp hb with hb | hb
      · subst hb; exact hle
      · exact htrans p q b hle (hq b hb)
    case isFalse hle =>
      refine List.pairwise_cons.mpr ⟨?_, ih hrest⟩
      intro b hb
      rcases (insertOrd_mem le p b rest).mp hb with hb | hb
      · rw [hb]
        exact htot p q (Bool.eq_false_iff.mpr hle)
      · exact hq b hb

theorem sortOrd_pairwise {α : Type} (le : α → α → Bool)
    (htot : ∀ a b, le a b = false → le b a = true)
    (htrans : ∀ a b c, le a b = true → le b c = true → le a c = true)
    (l : List α) :
    (sortOrd le l).Pairwise (fun a b => le a b = true) := by
  induction l with
  | nil => simp [sortOrd]
  | cons a rest ih => exact insertOrd_pairwise le htot htrans a (sortOrd le rest) ih

/-! ## Series aggregation (`app/banking/services.py`: `_aggregate_series`).
Timestamps carry a calendar date plus a time-of-day component; the Python
code first localizes a `datetime` and keeps its `.date()`, which here is
the `date` field (timezone localization is an external collaborator and
does not change which calendar date a point belongs to in this model). -/

/-- A `datetime` value: calendar date plus minute of the day. -/
structure Timestamp where
  date : SimDate
  minuteOfDay : ℤ
deriving DecidableEq, Repr

/-- Supported aggregation cadences of `_aggregate_series`. -/
inductive Cadence
  | daily
  | monthly
  | yearly
deriving DecidableEq, Repr

/-- The bucket key of a date under a cadence: the date itself, the first
of its month, or the first of its year. -/
def bucketKey (period : Cadence) (d : SimDate) : SimDate :=
  match period with
  | Cadence.yearly => ⟨d.year, 1, 1⟩
  | Cadence.monthly => ⟨d.year, d.month, 1⟩
  | Cadence.daily => d

/-- Python `dict` assignment `aggregated[key] = value`: replace the value
at an existing key in place, or append a new binding. -/
def upsert (m : List (SimDate × ℚ)) (k : SimDate) (v : ℚ) :
    List (SimDate × ℚ) :=
  match m with
  | [] => [(k, v)]
  | (k', v') :: rest =>
    if k' = k then (k, v) :: rest else (k', v') :: upsert rest k v

/-- Python `dict` lookup on the association list. -/
def lookupKey (m : List (SimDate × ℚ)) (k : SimDate) : Option ℚ :=
  match m with
  | [] => none
  | (k', v) :: rest => if k' = k then some v else lookupKey rest k

/-- Left-biased choice on optional values. -/
def optOr (a b : Option ℚ) : Option ℚ :=
  match a with
  | some v => some v
  | none => b

/-- Embedding of `_aggregate_series`: collapse a dated series to the requested cadence;
dictionary insertion keeps the last value written per key and the items
are returned sorted by key. -/
def aggregate_series (series : List (Timestamp × ℚ)) (period : Cadence) :
    List (SimDate × ℚ) :=
  let aggregated := series.foldl
    (fun m p => upsert m (bucketKey period p.1.date) (quantize_amount p.2)) []
  sortOrd (fun p q => decide (dateLE p.1 q.1)) aggregated

/-- The last quantized value among the series points falling in bucket
`k`, if any: the closing balance of the bucket. -/
def lastValueInBucket (series : List (Timestamp × ℚ)) (period : Cadence)
    (k : SimDate) : Option ℚ :=
  ((series.filter (fun p => bucketKey period p.1.date = k)).map
    (fun p => quantize_amount p.2)).getLast?

theorem optOr_none (b : Option ℚ) : optOr none b = b := rfl

theorem optOr_some (v : ℚ) (b : Option ℚ) : optOr (some v) b = some v := rfl

theorem lookupKey_upsert_self (m : List (SimDate × ℚ)) (k : SimDate) (v : ℚ) :
    lookupKey (upsert m k v) k = some v := by
  induction m with
  | nil => simp [upsert, lookupKey]
  | cons p rest ih =>
    obtain ⟨k', v'⟩ := p
    unfold upsert
    split
    case isTrue h => simp [lookupKey]
    case isFalse h => simp [lookupKey, h, ih]

theorem lookupKey_upsert_ne (m : List (SimDate × ℚ)) (k k' : SimDate) (v : ℚ)
    (h : k' ≠ k) : lookupKey (upsert m k v) k' = lookupKey m k' := by
  induction m with
  | nil => simp [upsert, lookupKey, Ne.symm h]
  | cons p rest ih =>
    obtain ⟨k0, v0⟩ := p
    unfold upsert
    split
    case isTrue h0 =>
      subst h0
      simp [lookupKey, Ne.symm h]
    case isFalse h0 => simp only [lookupKey, ih]

theorem lastValueInBucket_cons (p : Timestamp × ℚ)
    (series : List (Timestamp × ℚ)) (period : Cadence) (k : SimDate) :
    lastValueInBucket (p :: series) period k =
      optOr (lastValueInBucket series period k)
        (if bucketKey period p.1.date = k then some (quantize_amount p.2)
          else none) := by
  by_cases h : bucketKey period p.1.date = k
  · rw [if_pos h]
    unfold lastValueInBucket
    rw [List.filter_cons, if_pos (by simp [h]), List.map_cons]
    cases hrest : (List.map (fun p => quantize_amount p.2)
        (List.filter (fun p => decide (bucketKey period p.1.date = k)) series)) with
    | nil => rfl
    | cons x xs =>
      rw [List.getLast?_cons_cons]
      obtain ⟨y, hy⟩ := Option.isSome_iff_exists.mp
        (List.getLast?_isSome.mpr (List.cons_ne_nil x xs))
      rw [hy]
      rfl
  · rw [if_neg h]
    unfold lastValueInBucket
    rw [List.filter_cons, if_neg (by simp [h])]
    cases hx : (List.map (fun p => quantize_amount p.2)
        (List.filter (fun p => decide (bucketKey period p.1.date = k)) series)).getLast? <;>
      rfl

theorem lookupKey_foldl_upsert (period : Cadence)
    (l : List (Timestamp × ℚ)) :
    ∀ (m : List (SimDate × ℚ)) (k : SimDate),
      lookupKey
        (l.foldl
          (fun m p => upsert m (bucketKey period p.1.date) (quantize_amount p.2))
          m) k =
      optOr (lastValueInBucket l period k) (lookupKey m k) := by
  induction l with
  | nil =>
    intro m k
    simp [lastValueInBucket, optOr]
  | cons p rest ih =>
    intro m k
    rw [List.foldl_cons, ih, lastValueInBucket_cons]
    by_cases h : bucketKey period p.1.date = k
    · rw [if_pos h, h, lookupKey_upsert_self]
      cases lastValueInBucket rest period k <;> rfl
    · rw [if_neg h, lookupKey_upsert_ne _ _ _ _ (fun hk => h hk.symm)]
      cases lastValueInBucket rest period k <;> rfl

theorem keys_upsert (m : List (SimDate × ℚ)) (k : SimDate) (v : ℚ) :
    (upsert m k v).map Prod.fst =
      if k ∈ m.map Prod.fst then m.map Prod.fst
      else m.map Prod.fst ++ [k] := by
  induction m with
  | nil => simp [upsert]
  | cons p rest ih =>
    obtain ⟨k0, v0⟩ := p
    unfold upsert
    by_cases h : k0 = k
    · subst h
      simp
    · rw [if_neg h, List.map_cons, ih, List.map_cons]
      by_cases hk : k ∈ rest.map Prod.fst
      · rw [if_pos hk, if_pos (List.mem_cons_of_mem _ hk)]
      · rw [if_neg hk, if_neg ?_]
        · simp
        · intro hmem
          rcases List.mem_cons.mp hmem with hmem | hmem
          · exact h hmem.symm
          · exact hk hmem

theorem nodup_keys_upsert (m : List (SimDate × ℚ)) (k : SimDate) (v : ℚ)
    (h : (m.map Prod.fst).Nodup) : ((upsert m k v).map Prod.fst).Nodup := by
  rw [keys_upsert]
  by_cases hk : k ∈ m.map Prod.fst
  · rw [if_pos hk]
    exact h
  · rw [if_neg hk]
    simp [List.nodup_append, h, hk]

theorem nodup_keys_foldl_upsert (period : Cadence)
    (l : List (Timestamp × ℚ)) :
    ∀ (m : List (SimDate × ℚ)), (m.map Prod.fst).Nodup →
      ((l.foldl
        (fun m p => upsert m (bucketKey period p.1.date) (quantize_amount p.2))
        m).map Prod.fst).Nodup := by
  induction l with
  | nil => intro m hm; exact hm
  | cons p rest ih =>
    intro m hm
    exact ih _ (nodup_keys_upsert m _ _ hm)

theorem mem_iff_lookupKey (m : List (SimDate × ℚ))
    (h : (m.map Prod.fst).Nodup) (k : SimDate) (v : ℚ) :
    (k, v) ∈ m ↔ lookupKey m k = some v := by
  induction m with
  | nil => simp [lookupKey]
  | cons p rest ih =>
    obtain ⟨k0, v0⟩ := p
    rw [List.map_cons, List.nodup_cons] at h
    obtain ⟨hk0, hrest⟩ := h
    unfold lookupKey
    by_cases hkk : k0 = k
    · subst hkk
      rw [if_pos rfl]
      constructor
      · intro hm
        rcases List.mem_cons.mp hm with hm | hm
        · rw [Prod.mk.injEq] at hm
          rw [hm.2]
        · exact absurd (List.mem_map_of_mem Prod.fst hm) hk0
      · intro hv
        rw [Option.some_inj] at hv
        subst hv
        exact List.mem_cons_self _ _
    · rw [if_neg hkk]
      rw [List.mem_cons]
      constructor
      · intro hm
        rcases hm with hm | hm
        · rw [Prod.mk.injEq] at hm
          exact absurd hm.1.symm hkk
        · exact (ih hrest).mp hm
      · intro hv
        exact Or.inr ((ih hrest).mpr hv)

theorem optOr_none_right (a : Option ℚ) : optOr a none = a := by
  cases a <;> rfl

theorem dateLE_total (a b : SimDate) : dateLE a b ∨ dateLE b a := by
  obtain ⟨ay, am, ad⟩ := a
  obtain ⟨by_, bm, bd⟩ := b
  simp only [dateLE]
  omega

theorem dateLE_trans {a b c : SimDate} (h1 : dateLE a b) (h2 : dateLE b c) :
    dateLE a c := by
  obtain ⟨ay, am, ad⟩ := a
  obtain ⟨by_, bm, bd⟩ := b
  obtain ⟨cy, cm, cd⟩ := c
  simp only [dateLE] at h1 h2 ⊢
  omega

/-- C9: For every balance series and cadence in {daily, monthly, yearly},
aggregate produces exactly one point per bucket (calendar day, first of
month, or first of year) whose value is the last observed value within
that bucket, not an average; aggregating
[(t0,100),(t0+3h,120),(t1,150)] daily, with t0 and t0+3h on the same day
and t1 the next day, yields [(day0,120),(day1,150)]. -/
theorem C9_aggregate_last_per_bucket (series : List (Timestamp × ℚ))
    (period : Cadence) :
    ((aggregate_series series period).map Prod.fst).Nodup ∧
    (aggregate_series series period).Pairwise (fun p q => dateLE p.1 q.1) ∧
    (∀ (k : SimDate) (v : ℚ), (k, v) ∈ aggregate_series series period ↔
      lastValueInBucket series period k = some v) ∧
    aggregate_series
        [(⟨⟨2024, 5, 1⟩, 540⟩, 100), (⟨⟨2024, 5, 1⟩, 720⟩, 120),
          (⟨⟨2024, 5, 2⟩, 540⟩, 150)] Cadence.daily =
      [(⟨2024, 5, 1⟩, 120), (⟨2024, 5, 2⟩, 150)] := by
  have hagg : aggregate_series series period =
      sortOrd (fun p q => decide (dateLE p.1 q.1))
        (series.foldl
          (fun m p => upsert m (bucketKey period p.1.date) (quantize_amount p.2))
          []) := rfl
  have hperm := sortOrd_perm (fun p q : SimDate × ℚ => decide (dateLE p.1 q.1))
    (series.foldl
      (fun m p => upsert m (bucketKey period p.1.date) (quantize_amount p.2))
      [])
  have hnodup := nodup_keys_foldl_upsert period series [] (by simp)
  refine ⟨?_, ?_, ?_, ?_⟩
  · rw [hagg]
    exact (hperm.map Prod.fst).nodup_iff.mpr hnodup
  · rw [hagg]
    refine List.Pairwise.imp ?_
      (sortOrd_pairwise (fun p q : SimDate × ℚ => decide (dateLE p.1 q.1))
        ?_ ?_ _)
    · intro a b hab
      simpa using hab
    · intro a b hab
      simp only [decide_eq_false_iff_not] at hab
      simp only [decide_eq_true_eq]
      rcases dateLE_total a.1 b.1 with h | h
      · exact absurd h hab
      · exact h
    · intro a b c hab hbc
      simp only [decide_eq_true_eq] at hab hbc ⊢
      exact dateLE_trans hab hbc
  · intro k v
    rw [hagg, hperm.mem_iff, mem_iff_lookupKey _ hnodup,
      lookupKey_foldl_upsert period series [] k]
    have hnil : lookupKey [] k = none := rfl
    rw [hnil, optOr_none_right]
  · norm_num [aggregate_series, sortOrd, insertOrd, upsert, bucketKey,
      quantize_amount, roundHalfUp, dateLE, SimDate.mk.injEq]

/-- Witness for C9: the membership characterization evaluated on the
concrete example series. -/
theorem C9_aggregate_last_per_bucket_witness :
    (⟨2024, 5, 1⟩, (120 : ℚ)) ∈
      aggregate_series
        [(⟨⟨2024, 5, 1⟩, 540⟩, 100), (⟨⟨2024, 5, 1⟩, 720⟩, 120),
          (⟨⟨2024, 5, 2⟩, 540⟩, 150)] Cadence.daily ↔
    lastValueInBucket
        [(⟨⟨2024, 5, 1⟩, 540⟩, 100), (⟨⟨2024, 5, 1⟩, 720⟩, 120),
          (⟨⟨2024, 5, 2⟩, 540⟩, 150)] Cadence.daily ⟨2024, 5, 1⟩ =
      some 120 :=
  (C9_aggregate_last_per_bucket
    [(⟨⟨2024, 5, 1⟩, 540⟩, 100), (⟨⟨2024, 5, 1⟩, 720⟩, 120),
      (⟨⟨2024, 5, 2⟩, 540⟩, 150)] Cadence.daily).2.2.1 ⟨2024, 5, 1⟩ 120

/-! ## Recent transaction fetch (`app/banking/services.py`:
`fetch_recent_transactions`).  A stored transaction row joined with its
owning account; `created_at` is the creation instant (rows are compared
only by this field for ordering). -/

/-- A `BankTransaction` row as returned by the fetch, with its owning
account's slug and creation timestamp. -/
structure TxRecord where
  account : String
  name : String
  direction : Direction
  amount : ℚ
  created_at : ℤ
deriving DecidableEq, Repr

/-- Embedding of `fetch_recent_transactions`: most recent transactions newest-first,
excluding the cash account unless `include_cash`, capped at `limit` when
`limit` is truthy (Python `if limit:` — a zero limit applies no cap). -/
def fetch_recent_transactions (txs : List TxRecord) (limit : ℕ)
    (include_cash : Bool) : List TxRecord :=
  let matching := if include_cash then txs
    else txs.filter (fun t => t.account ≠ "hand")
  let ordered := sortOrd (fun a b => decide (b.created_at ≤ a.created_at)) matching
  if limit ≠ 0 then ordered.take limit else ordered

/-- C10: For every call to the recent-transactions fetch: results are
ordered newest-first and exclude the cash ("hand") account unless
include_cash is true; when limit > 0 at most limit entries are returned,
but when limit = 0 no cap is applied and every matching transaction is
returned. -/
theorem C10_fetch_recent_transactions (txs : List TxRecord) (limit : ℕ)
    (include_cash : Bool) :
    let r := fetch_recent_transactions txs limit include_cash
    r.Pairwise (fun a b => b.created_at ≤ a.created_at) ∧
    (∀ t ∈ r, t ∈ txs) ∧
    (include_cash = false → ∀ t ∈ r, t.account ≠ "hand") ∧
    (0 < limit → r.length ≤ limit) ∧
    (limit = 0 → ∀ t ∈ txs, (include_cash = true ∨ t.account ≠ "hand") →
      t ∈ r) := by
  intro r
  have hmatch : ∀ t, t ∈ (if include_cash then txs
      else txs.filter (fun t => t.account ≠ "hand")) ↔
      (t ∈ txs ∧ (include_cash = true ∨ t.account ≠ "hand")) := by
    intro t
    cases include_cash with
    | true => simp
    | false => simp [List.mem_filter]
  have hperm := sortOrd_perm (fun a b : TxRecord => decide (b.created_at ≤ a.created_at))
    (if include_cash then txs else txs.filter (fun t => t.account ≠ "hand"))
  have hsorted : (sortOrd (fun a b : TxRecord => decide (b.created_at ≤ a.created_at))
      (if include_cash then txs
        else txs.filter (fun t => t.account ≠ "hand"))).Pairwise
      (fun a b => b.created_at ≤ a.created_at) := by
    refine List.Pairwise.imp ?_
      (sortOrd_pairwise (fun a b : TxRecord => decide (b.created_at ≤ a.created_at))
        ?_ ?_ _)
    · intro a b hab
      simpa using hab
    · intro a b hab
      simp only [decide_eq_false_iff_not] at hab
      simp only [decide_eq_true_eq]
      omega
    · intro a b c hab hbc
      simp only [decide_eq_true_eq] at hab hbc ⊢
      omega
  have hr : r = if limit ≠ 0 then
      (sortOrd (fun a b : TxRecord => decide (b.created_at ≤ a.created_at))
        (if include_cash then txs
          else txs.filter (fun t => t.account ≠ "hand"))).take limit
    else sortOrd (fun a b : TxRecord => decide (b.created_at ≤ a.created_at))
      (if include_cash then txs
        else txs.filter (fun t => t.account ≠ "hand")) := rfl
  by_cases hlim : limit = 0
  · rw [hr, if_neg (by simp [hlim])]
    refine ⟨hsorted, ?_, ?_, ?_, ?_⟩
    · intro t ht
      exact ((hmatch t).mp (hperm.mem_iff.mp ht)).1
    · intro hic t ht
      rcases ((hmatch t).mp (hperm.mem_iff.mp ht)).2 with h | h
      · rw [hic] at h
        cases h
      · exact h
    · intro hpos
      omega
    · intro _ t ht hcase
      exact hperm.mem_iff.mpr ((hmatch t).mpr ⟨ht, hcase⟩)
  · rw [hr, if_pos (by simp [hlim])]
    refine ⟨?_, ?_, ?_, ?_, ?_⟩
    · exact hsorted.sublist (List.take_sublist _ _)
    · intro t ht
      have := (List.take_sublist limit _).mem ht
      exact ((hmatch t).mp (hperm.mem_iff.mp this)).1
    · intro hic t ht
      have := (List.take_sublist limit _).mem ht
      rcases ((hmatch t).mp (hperm.mem_iff.mp this)).2 with h | h
      · rw [hic] at h
        cases h
      · exact h
    · intro _
      rw [List.length_take]
      exact min_le_left _ _
    · intro h0
      exact absurd h0 hlim

/-- Witness for C10 on a two-row ledger with a cash row, limit 1. -/
theorem C10_fetch_recent_transactions_witness :
    let tx1 : TxRecord := ⟨"checking", "Initial Deposit", Direction.credit, 100, 1⟩
    let tx2 : TxRecord := ⟨"hand", "Sweep", Direction.credit, 20, 2⟩
    ((0 : ℕ) < 1 ∧
      (fetch_recent_transactions [tx1, tx2] 1 false).length ≤ 1) ∧
    (∀ t ∈ fetch_recent_transactions [tx1, tx2] 1 false, t.account ≠ "hand") :=
  ⟨⟨by norm_num,
    (C10_fetch_recent_transactions [⟨"checking", "Initial Deposit", Direction.credit, 100, 1⟩,
      ⟨"hand", "Sweep", Direction.credit, 20, 2⟩] 1 false).2.2.2.1 (by norm_num)⟩,
    (C10_fetch_recent_transactions [⟨"checking", "Initial Deposit", Direction.credit, 100, 1⟩,
      ⟨"hand", "Sweep", Direction.credit, 20, 2⟩] 1 false).2.2.1 rfl⟩

/-! ## Persistent banking state (`app/banking/models.py` and the route
handlers in `app/banking/routes.py`).  The application only ever creates
the accounts `hand` (cash, seeded open, never closed), `checking` and
`savings`; the state is the cash balance plus the two optional account
rows.  Handlers validate first and mutate second; a handler returning an
error leaves the state exactly as received, mirroring the validation
ordering and the session rollback of the source. -/

/-- A checking or savings account row: display name, stored balance and
lifecycle flag. -/
structure SubAccount where
  name : String
  balance : ℚ
  is_closed : Bool
deriving DecidableEq, Repr

/-- The banking database state: cash balance plus the optional checking
and savings rows (`none` = row never created). -/
structure BankState where
  hand : ℚ
  checking : Option SubAccount
  savings : Option SubAccount
deriving DecidableEq, Repr

/-- The `BankSettings` fields consulted by the embedded handlers. -/
structure BankSettings where
  checking_opening_deposit : ℚ
  savings_opening_deposit : ℚ
  bank_closure_fee : ℚ
  checking_closure_fee : ℚ
  savings_closure_fee : ℚ
deriving DecidableEq, Repr

/-- The stored row for a non-cash slug, if any. -/
def slot_of (st : BankState) (slug : String) : Option SubAccount :=
  if slug = "checking" then st.checking
  else if slug = "savings" then st.savings
  else none

/-- Embedding of `find_account(slug, include_closed=...)`: locate an account by slug,
skipping closed rows unless `include_closed`. -/
def find_account (st : BankState) (slug : String) (include_closed : Bool) :
    Option Account :=
  if slug = "hand" then some ⟨"hand", "Cash", st.hand⟩
  else
    match slot_of st slug with
    | none => none
    | some a =>
      if a.is_closed = true ∧ include_closed = false then none
      else some ⟨slug, a.name, a.balance⟩

/-- Write a new balance to the row identified by `slug` (the SQLAlchemy
attribute assignment `account.balance = ...`). -/
def set_balance (st : BankState) (slug : String) (b : ℚ) : BankState :=
  if slug = "hand" then ⟨b, st.checking, st.savings⟩
  else if slug = "checking" then
    ⟨st.hand, st.checking.map (fun a => ⟨a.name, b, a.is_closed⟩), st.savings⟩
  else if slug = "savings" then
    ⟨st.hand, st.checking, st.savings.map (fun a => ⟨a.name, b, a.is_closed⟩)⟩
  else st

/-- Error outcomes of the banking handlers (the `_json_error` responses
and settings-page error feedbacks of `routes.py`). -/
inductive OpError
  | invalidAmount
  | nonPositiveAmount
  | missingAccounts
  | sameAccount
  | unknownAccounts
  | insufficientFunds (available : ℚ)
  | unknownDestination
  | unknownSource
  | validationErrors (messages : List String)
  | noSelection
  | insufficientCash (available : ℚ)
  | invalidTarget
  | alreadyClosed
  | unknownAccount
  | negativeAmount
deriving DecidableEq, Repr

/-- Outcome of a handler: the committed state, the ledger entries written
by the operation, and the error (if any; an error means the transaction
was not committed, so the state is the caller's). -/
structure OpResult where
  state : BankState
  entries : List LedgerEntry
  error : Option OpError
deriving DecidableEq, Repr

/-- Every balance stored in the state is non-negative. -/
def NonNegState (st : BankState) : Prop :=
  0 ≤ st.hand ∧ (∀ a, st.checking = some a → 0 ≤ a.balance) ∧
    (∀ a, st.savings = some a → 0 ≤ a.balance)

/-- Every balance stored in the state is a whole number of cents. -/
def QuantizedState (st : BankState) : Prop :=
  IsQuantized st.hand ∧ (∀ a, st.checking = some a → IsQuantized a.balance) ∧
    (∀ a, st.savings = some a → IsQuantized a.balance)

theorem slot_of_eq {st : BankState} {slug : String} {a : SubAccount}
    (h : slot_of st slug = some a) :
    st.checking = some a ∨ st.savings = some a := by
  unfold slot_of at h
  split_ifs at h
  · exact Or.inl h
  · exact Or.inr h

theorem find_account_some_elim {st : BankState} {slug : String}
    {inc : Bool} {acc : Account} (h : find_account st slug inc = some acc) :
    (slug = "hand" ∧ acc = ⟨"hand", "Cash", st.hand⟩) ∨
    (∃ a, slot_of st slug = some a ∧ acc = ⟨slug, a.name, a.balance⟩ ∧
      ¬(a.is_closed = true ∧ inc = false)) := by
  unfold find_account at h
  split_ifs at h with h1
  · rw [Option.some_inj] at h
    exact Or.inl ⟨h1, h.symm⟩
  · cases hslot : slot_of st slug with
    | none => rw [hslot] at h; cases h
    | some a =>
      rw [hslot] at h
      dsimp only at h
      split_ifs at h with h2
      rw [Option.some_inj] at h
      exact Or.inr ⟨a, rfl, h.symm, h2⟩

theorem find_account_balance_nonneg {st : BankState} {slug : String}
    {inc : Bool} {acc : Account} (hn : NonNegState st)
    (h : find_account st slug inc = some acc) : 0 ≤ acc.balance := by
  obtain ⟨hh, hc, hs⟩ := hn
  rcases find_account_some_elim h with ⟨_, hacc⟩ | ⟨a, hslot, hacc, _⟩
  · rw [hacc]
    exact hh
  · rw [hacc]
    rcases slot_of_eq hslot with ha | ha
    · exact hc a ha
    · exact hs a ha

theorem find_account_balance_quantized {st : BankState} {slug : String}
    {inc : Bool} {acc : Account} (hq : QuantizedState st)
    (h : find_account st slug inc = some acc) : IsQuantized acc.balance := by
  obtain ⟨hh, hc, hs⟩ := hq
  rcases find_account_some_elim h with ⟨_, hacc⟩ | ⟨a, hslot, hacc, _⟩
  · rw [hacc]
    exact hh
  · rw [hacc]
    rcases slot_of_eq hslot with ha | ha
    · exact hc a ha
    · exact hs a ha

theorem nonneg_set_balance {st : BankState} (slug : String) {b : ℚ}
    (hn : NonNegState st) (hb : 0 ≤ b) : NonNegState (set_balance st slug b) := by
  obtain ⟨hh, hc, hs⟩ := hn
  unfold set_balance
  split_ifs
  · exact ⟨hb, hc, hs⟩
  · refine ⟨hh, ?_, hs⟩
    intro a' ha'
    cases hc0 : st.checking with
    | none => rw [hc0] at ha'; cases ha'
    | some a =>
      rw [hc0, Option.map_some', Option.some_inj] at ha'
      rw [← ha']
      exact hb
  · refine ⟨hh, hc, ?_⟩
    intro a' ha'
    cases hs0 : st.savings with
    | none => rw [hs0] at ha'; cases ha'
    | some a =>
      rw [hs0, Option.map_some', Option.some_inj] at ha'
      rw [← ha']
      exact hb
  · exact ⟨hh, hc, hs⟩

/-! ## Transfer / deposit / withdraw handlers
(`app/banking/routes.py`: `api_move`, `api_deposit`, `api_withdraw`).
`amount_raw = none` models a payload whose amount fails to parse
(`quantize_amount` raising). -/

/-- Embedding of `api_move`: move money between any two accounts. -/
def api_move (st : BankState) (source_slug destination_slug : String)
    (amount_raw : Option ℚ) : OpResult :=
  match amount_raw with
  | none => ⟨st, [], some OpError.invalidAmount⟩
  | some raw =>
    let amount := quantize_amount raw
    if amount ≤ 0 then ⟨st, [], some OpError.nonPositiveAmount⟩
    else if source_slug = "" ∨ destination_slug = "" then
      ⟨st, [], some OpError.missingAccounts⟩
    else if source_slug = destination_slug then
      ⟨st, [], some OpError.sameAccount⟩
    else
      match find_account st source_slug false,
        find_account st destination_slug false with
      | some source, some destination =>
        if source.balance < amount then
          ⟨st, [], some (OpError.insufficientFunds source.balance)⟩
        else
          let r := apply_transfer source destination amount
          let st1 := set_balance st source_slug r.1.balance
          let st2 := set_balance st1 destination_slug r.2.1.balance
          ⟨st2, r.2.2, none⟩
      | _, _ => ⟨st, [], some OpError.unknownAccounts⟩

/-- Embedding of `api_deposit`: move money from cash into a selected account.  The two
balance writes are sequential attribute assignments on ORM rows, so when
the destination is the cash row itself the second write reads the first
one's result. -/
def api_deposit (st : BankState) (destination_slug : String)
    (amount_raw : Option ℚ) : OpResult :=
  match amount_raw with
  | none => ⟨st, [], some OpError.invalidAmount⟩
  | some raw =>
    let amount := quantize_amount raw
    if amount ≤ 0 then ⟨st, [], some OpError.nonPositiveAmount⟩
    else
      match find_account st destination_slug false with
      | none => ⟨st, [], some OpError.unknownDestination⟩
      | some destination =>
        if st.hand < amount then
          ⟨st, [], some (OpError.insufficientFunds st.hand)⟩
        else
          let st1 := set_balance st "hand" (quantize_amount (st.hand - amount))
          match find_account st1 destination_slug false with
          | none => ⟨st, [], some OpError.unknownDestination⟩
          | some destination1 =>
            let st2 := set_balance st1 destination_slug
              (quantize_amount (destination1.balance + amount))
            ⟨st2,
              [⟨destination_slug, "Cash Allocation",
                "Wallet deposit into " ++ destination.name,
                Direction.credit, amount⟩], none⟩

/-- Embedding of `api_withdraw`: move money from an account back into cash. -/
def api_withdraw (st : BankState) (source_slug : String)
    (amount_raw : Option ℚ) : OpResult :=
  match amount_raw with
  | none => ⟨st, [], some OpError.invalidAmount⟩
  | some raw =>
    let amount := quantize_amount raw
    if amount ≤ 0 then ⟨st, [], some OpError.nonPositiveAmount⟩
    else
      match find_account st source_slug false with
      | none => ⟨st, [], some OpError.unknownSource⟩
      | some source =>
        if source.balance < amount then
          ⟨st, [], some (OpError.insufficientFunds source.balance)⟩
        else
          let st1 := set_balance st source_slug
            (quantize_amount (source.balance - amount))
          let st2 := set_balance st1 "hand" (quantize_amount (st1.hand + amount))
          ⟨st2,
            [⟨source_slug, "Cash Withdrawal",
              "Funds moved from " ++ source.name ++ " to cash",
              Direction.debit, amount⟩], none⟩

/-! ## Batch account opening (`app/banking/routes.py`:
`api_open_accounts`). -/

/-- The JSON payload: for each of the two openable account types, whether
the slug was requested and, if so, the parsed deposit (`none` inside =
`quantize_amount` could not parse the supplied deposit). -/
structure OpenRequest where
  checking : Option (Option ℚ)
  savings : Option (Option ℚ)
deriving DecidableEq, Repr

/-- Deposit validation for one requested slug (parse, minimum, positive). -/
def validate_open_deposit (name : String) (minimum_deposit : ℚ)
    (raw : Option ℚ) : Sum String ℚ :=
  match raw with
  | none => Sum.inl ("Provide a valid deposit for the " ++ name ++ ".")
  | some r =>
    let deposit_amount := quantize_amount r
    let minimum_required := quantize_amount minimum_deposit
    if deposit_amount < minimum_required then
      Sum.inl ("Deposit at least the minimum to open the " ++ name ++ ".")
    else if deposit_amount ≤ 0 then
      Sum.inl ("Deposit a positive amount for the " ++ name ++ ".")
    else Sum.inr deposit_amount

/-- Per-slug validation of `api_open_accounts`: reject a slug that is
already open, then validate the deposit; a successful validation yields
(slug, deposit, is_reopening). -/
def validate_open (st : BankState) (slug name : String) (minimum_deposit : ℚ)
    (raw : Option ℚ) : Sum String (String × ℚ × Bool) :=
  match slot_of st slug with
  | some a =>
    if a.is_closed = false then Sum.inl (name ++ " is already open.")
    else (validate_open_deposit name minimum_deposit raw).elim Sum.inl
      (fun d => Sum.inr (slug, d, true))
  | none => (validate_open_deposit name minimum_deposit raw).elim Sum.inl
    (fun d => Sum.inr (slug, d, false))

/-- The validation outcomes for the requested slugs, in the fixed
checking-then-savings order of `account_configs`. -/
def open_validations (st : BankState) (settings : BankSettings)
    (req : OpenRequest) : List (Sum String (String × ℚ × Bool)) :=
  (match req.checking with
    | none => []
    | some raw => [validate_open st "checking" "Checking Account"
        settings.checking_opening_deposit raw]) ++
  (match req.savings with
    | none => []
    | some raw => [validate_open st "savings" "Savings Account"
        settings.savings_opening_deposit raw])

/-- Install a freshly opened (or reopened) row: name and category reset,
balance set to the quantized deposit, closed flag cleared. -/
def install_open_selection (st : BankState) (slug : String) (amount : ℚ) :
    BankState :=
  let name := if slug = "checking" then "Checking Account" else "Savings Account"
  let account : SubAccount := ⟨name, quantize_amount amount, false⟩
  if slug = "checking" then ⟨st.hand, some account, st.savings⟩
  else ⟨st.hand, st.checking, some account⟩

/-- The aggregated validation error messages of the request. -/
def open_errors (st : BankState) (settings : BankSettings)
    (req : OpenRequest) : List String :=
  (open_validations st settings req).filterMap (fun r => r.getLeft?)

/-- The validated selections (slug, deposit, is_reopening) of the request. -/
def open_selections (st : BankState) (settings : BankSettings)
    (req : OpenRequest) : List (String × ℚ × Bool) :=
  (open_validations st settings req).filterMap (fun r => r.getRight?)

/-- The "Initial Deposit" ledger entry for one opened account. -/
def open_entry (sel : String × ℚ × Bool) : LedgerEntry :=
  ⟨sel.1, "Initial Deposit",
    "Opening deposit for " ++
      (if sel.1 = "checking" then "Checking Account" else "Savings Account"),
    Direction.credit, sel.2.1⟩

/-- Apply the validated selections: install each account row and record
its opening entry. -/
def open_apply (st : BankState) (sels : List (String × ℚ × Bool)) :
    BankState × List LedgerEntry :=
  sels.foldl
    (fun acc sel =>
      (install_open_selection acc.1 sel.1 sel.2.1, acc.2 ++ [open_entry sel]))
    (st, [])

/-- Embedding of `api_open_accounts`: validate every requested account before any
mutation; on success create/reactivate each account with its "Initial
Deposit" entry and debit cash once by the total. -/
def api_open_accounts (st : BankState) (settings : BankSettings)
    (req : OpenRequest) : OpResult :=
  let errors := open_errors st settings req
  let selections := open_selections st settings req
  if errors ≠ [] then ⟨st, [], some (OpError.validationErrors errors)⟩
  else if selections = [] then ⟨st, [], some OpError.noSelection⟩
  else
    let total_deposit := (selections.map (fun s => s.2.1)).sum
    if st.hand < total_deposit then
      ⟨st, [], some (OpError.insufficientCash st.hand)⟩
    else
      let applied := open_apply st selections
      ⟨⟨quantize_amount (applied.1.hand - total_deposit), applied.1.checking,
        applied.1.savings⟩, applied.2, none⟩

/-! ## Account closure (`app/banking/routes.py`:
`_handle_account_closure`). -/

/-- The closure fee configured for the requested scope. -/
def closure_fee_for (settings : BankSettings) (target : String) : ℚ :=
  if target = "all" then quantize_amount settings.bank_closure_fee
  else if target = "checking" then quantize_amount settings.checking_closure_fee
  else quantize_amount settings.savings_closure_fee

/-- The fee label for the requested scope. -/
def fee_label_for (target : String) : String :=
  if target = "all" then "Bank"
  else if target = "checking" then "Checking"
  else "Savings"

/-- Zero and close one account row inside the state. -/
def close_slot (st : BankState) (slug : String) (a : SubAccount) : BankState :=
  if slug = "checking" then ⟨st.hand, some ⟨a.name, 0, true⟩, st.savings⟩
  else ⟨st.hand, st.checking, some ⟨a.name, 0, true⟩⟩

/-- The slugs targeted by a closure request. -/
def closure_requested (target : String) : List String :=
  if target = "all" then ["checking", "savings"] else [target]

/-- The open account (if any) stored under a requested slug. -/
def closure_pick (st : BankState) (slug : String) :
    Option (String × SubAccount) :=
  match slot_of st slug with
  | some a => if a.is_closed then none else some (slug, a)
  | none => none

/-- The currently open accounts among the requested slugs. -/
def closure_to_close (st : BankState) (target : String) :
    List (String × SubAccount) :=
  (closure_requested target).filterMap (closure_pick st)

/-- Sweep the accounts being closed: write a debit entry on each account
with a positive balance and a credit entry on cash, accumulate the swept
total, zero and close each account. -/
def close_step (acc : BankState × List LedgerEntry × ℚ)
    (x : String × SubAccount) : BankState × List LedgerEntry × ℚ :=
  let balance := quantize_amount x.2.balance
  let entries := if 0 < balance then acc.2.1 ++
      [⟨x.1, "Account Closed",
        "Account closed and funds moved to cash.",
        Direction.debit, balance⟩,
        ⟨"hand", x.2.name ++ " Closure Transfer",
        "Funds from " ++ x.2.name ++ " moved to cash during closure.",
        Direction.credit, balance⟩]
    else acc.2.1
  let total := if 0 < balance then acc.2.2 + balance else acc.2.2
  (close_slot acc.1 x.1 x.2, entries, total)

def close_sweep (st : BankState) (to_close : List (String × SubAccount)) :
    BankState × List LedgerEntry × ℚ :=
  to_close.foldl close_step (st, [], 0)

/-- The committed effect of a validated closure request: sweep, then
collect the configured closure fee capped at the available cash. -/
def closure_commit (st : BankState) (settings : BankSettings)
    (target : String) : OpResult :=
  let swept := close_sweep st (closure_to_close st target)
  let st1 := swept.1
  let entries1 := swept.2.1
  let total_transfer := swept.2.2
  let cash1 := if 0 < total_transfer then
      quantize_amount (st1.hand + total_transfer)
    else st1.hand
  let closure_fee := closure_fee_for settings target
  if 0 < closure_fee then
    let available_fee := min (quantize_amount cash1) closure_fee
    if 0 < available_fee then
      ⟨⟨quantize_amount (cash1 - available_fee), st1.checking, st1.savings⟩,
        entries1 ++ [⟨"hand", "Closure Fee",
          fee_label_for target ++
            " closure fee collected during account closure.",
          Direction.debit, available_fee⟩], none⟩
    else ⟨⟨cash1, st1.checking, st1.savings⟩, entries1, none⟩
  else ⟨⟨cash1, st1.checking, st1.savings⟩, entries1, none⟩

/-- Embedding of `_handle_account_closure`: close the requested open accounts, sweep
positive balances to cash with a debit/credit entry pair, then collect
the configured closure fee capped at the available cash. -/
def handle_account_closure (st : BankState) (settings : BankSettings)
    (target : String) : OpResult :=
  if ¬(target = "all" ∨ target = "checking" ∨ target = "savings") then
    ⟨st, [], some OpError.invalidTarget⟩
  else if closure_to_close st target = [] then
    ⟨st, [], some OpError.alreadyClosed⟩
  else closure_commit st settings target

/-! ## Manual balance update and reset (`app/banking/routes.py`:
`_handle_balance_update`, `_handle_balance_reset`;
`app/banking/services.py`: `update_account_balance`). -/

/-- Embedding of `_handle_balance_update`: set one open account's balance to the
supplied non-negative amount via `update_account_balance`, which writes
the balance and nothing else — no ledger entry is created. -/
def handle_balance_update (st : BankState) (account_slug : String)
    (amount_raw : Option ℚ) : OpResult :=
  match find_account st account_slug false with
  | none => ⟨st, [], some OpError.unknownAccount⟩
  | some _target =>
    match amount_raw with
    | none => ⟨st, [], some OpError.invalidAmount⟩
    | some raw =>
      let amount := quantize_amount raw
      if amount < 0 then ⟨st, [], some OpError.negativeAmount⟩
      else ⟨set_balance st account_slug amount, [], none⟩

/-- Embedding of `_handle_balance_reset`: reset one open account's balance to zero via
`update_account_balance`; no ledger entry is created. -/
def handle_balance_reset (st : BankState) (account_slug : String) : OpResult :=
  match find_account st account_slug false with
  | none => ⟨st, [], some OpError.unknownAccount⟩
  | some _target => ⟨set_balance st account_slug (quantize_amount 0), [], none⟩

theorem quantize_nonneg {q : ℚ} (h : 0 ≤ q) : 0 ≤ quantize_amount q := by
  unfold quantize_amount roundHalfUp
  have h100 : (0 : ℚ) ≤ 100 * q := by positivity
  rw [if_pos h100]
  have hfl : (0 : ℤ) ≤ ⌊100 * q + 1 / 2⌋ := by
    rw [Int.le_floor]
    push_cast
    linarith
  positivity

theorem find_account_slug {st : BankState} {slug : String} {inc : Bool}
    {acc : Account} (h : find_account st slug inc = some acc) :
    acc.slug = slug := by
  rcases find_account_some_elim h with ⟨h1, hacc⟩ | ⟨a, _, hacc, _⟩
  · rw [hacc, h1]
  · rw [hacc]

theorem create_transfer_entries_ne_nil {source destination : Account}
    (h : source.slug ≠ destination.slug) (amount : ℚ) :
    create_transfer_entries source destination amount ≠ [] := by
  unfold create_transfer_entries
  by_cases hs : source.slug = "hand"
  · have hd : destination.slug ≠ "hand" := fun hd => h (hs.trans hd.symm)
    simp [hs, hd]
  · simp [hs]

/-- Exhaustive description of `api_move`: either a rejected request with
the state untouched, or a committed transfer. -/
theorem api_move_spec (st : BankState) (src dst : String) (raw : Option ℚ) :
    ((api_move st src dst raw).error ≠ none ∧
      (api_move st src dst raw).state = st ∧
      (api_move st src dst raw).entries = []) ∨
    (∃ q source destination, raw = some q ∧
      ¬quantize_amount q ≤ 0 ∧ src ≠ dst ∧
      find_account st src false = some source ∧
      find_account st dst false = some destination ∧
      ¬source.balance < quantize_amount q ∧
      api_move st src dst raw =
        ⟨set_balance
            (set_balance st src
              (apply_transfer source destination (quantize_amount q)).1.balance)
            dst
            (apply_transfer source destination (quantize_amount q)).2.1.balance,
          (apply_transfer source destination (quantize_amount q)).2.2, none⟩) := by
  cases raw with
  | none => left; simp [api_move]
  | some q =>
    by_cases h1 : quantize_amount q ≤ 0
    · left; simp [api_move, h1]
    · by_cases h2 : src = "" ∨ dst = ""
      · left; simp [api_move, h1, h2]
      · rw [not_or] at h2
        obtain ⟨h2a, h2b⟩ := h2
        by_cases h3 : src = dst
        · left; simp [api_move, h1, h2a, h2b, h3]
        · cases hfs : find_account st src false with
          | none => left; simp [api_move, h1, h2a, h2b, h3, hfs]
          | some source =>
            cases hfd : find_account st dst false with
            | none => left; simp [api_move, h1, h2a, h2b, h3, hfs, hfd]
            | some destination =>
              by_cases h4 : source.balance < quantize_amount q
              · left; simp [api_move, h1, h2a, h2b, h3, hfs, hfd, h4]
              · right
                exact ⟨q, source, destination, rfl, h1, h3, rfl, rfl, h4,
                  by simp [api_move, h1, h2a, h2b, h3, hfs, hfd, h4]⟩

/-- Exhaustive description of `api_deposit`. -/
theorem api_deposit_spec (st : BankState) (dst : String) (raw : Option ℚ) :
    ((api_deposit st dst raw).error ≠ none ∧
      (api_deposit st dst raw).state = st ∧
      (api_deposit st dst raw).entries = []) ∨
    (∃ q destination destination1, raw = some q ∧
      ¬quantize_amount q ≤ 0 ∧
      find_account st dst false = some destination ∧
      ¬st.hand < quantize_amount q ∧
      find_account (set_balance st "hand"
          (quantize_amount (st.hand - quantize_amount q))) dst false =
        some destination1 ∧
      api_deposit st dst raw =
        ⟨set_balance
            (set_balance st "hand"
              (quantize_amount (st.hand - quantize_amount q)))
            dst (quantize_amount (destination1.balance + quantize_amount q)),
          [⟨dst, "Cash Allocation", "Wallet deposit into " ++ destination.name,
            Direction.credit, quantize_amount q⟩], none⟩) := by
  cases raw with
  | none => left; simp [api_deposit]
  | some q =>
    by_cases h1 : quantize_amount q ≤ 0
    · left; simp [api_deposit, h1]
    · cases hfd : find_account st dst false with
      | none => left; simp [api_deposit, h1, hfd]
      | some destination =>
        by_cases h2 : st.hand < quantize_amount q
        · left; simp [api_deposit, h1, hfd, h2]
        · cases hfd1 : find_account (set_balance st "hand"
              (quantize_amount (st.hand - quantize_amount q))) dst false with
          | none => left; simp [api_deposit, h1, hfd, h2, hfd1]
          | some destination1 =>
            right
            exact ⟨q, destination, destination1, rfl, h1, rfl, h2, hfd1,
              by simp [api_deposit, h1, hfd, h2, hfd1]⟩

/-- Exhaustive description of `api_withdraw`. -/
theorem api_withdraw_spec (st : BankState) (src : String) (raw : Option ℚ) :
    ((api_withdraw st src raw).error ≠ none ∧
      (api_withdraw st src raw).state = st ∧
      (api_withdraw st src raw).entries = []) ∨
    (∃ q source, raw = some q ∧
      ¬quantize_amount q ≤ 0 ∧
      find_account st src false = some source ∧
      ¬source.balance < quantize_amount q ∧
      api_withdraw st src raw =
        ⟨set_balance
            (set_balance st src
              (quantize_amount (source.balance - quantize_amount q)))
            "hand"
            (quantize_amount
              ((set_balance st src
                (quantize_amount (source.balance - quantize_amount q))).hand +
                quantize_amount q)),
          [⟨src, "Cash Withdrawal",
            "Funds moved from " ++ source.name ++ " to cash",
            Direction.debit, quantize_amount q⟩], none⟩) := by
  cases raw with
  | none => left; simp [api_withdraw]
  | some q =>
    by_cases h1 : quantize_amount q ≤ 0
    · left; simp [api_withdraw, h1]
    · cases hfs : find_account st src false with
      | none => left; simp [api_withdraw, h1, hfs]
      | some source =>
        by_cases h2 : source.balance < quantize_amount q
        · left; simp [api_withdraw, h1, hfs, h2]
        · right
          exact ⟨q, source, rfl, h1, rfl, h2,
            by simp [api_withdraw, h1, hfs, h2]⟩

/-- Exhaustive description of `_handle_balance_update`. -/
theorem handle_balance_update_spec (st : BankState) (slug : String)
    (raw : Option ℚ) :
    ((handle_balance_update st slug raw).error ≠ none ∧
      (handle_balance_update st slug raw).state = st ∧
      (handle_balance_update st slug raw).entries = []) ∨
    (∃ q target, raw = some q ∧
      find_account st slug false = some target ∧
      ¬quantize_amount q < 0 ∧
      handle_balance_update st slug raw =
        ⟨set_balance st slug (quantize_amount q), [], none⟩) := by
  cases hft : find_account st slug false with
  | none => left; simp [handle_balance_update, hft]
  | some target =>
    cases raw with
    | none => left; simp [handle_balance_update, hft]
    | some q =>
      by_cases h1 : quantize_amount q < 0
      · left; simp [handle_balance_update, hft, h1]
      · right
        exact ⟨q, target, rfl, rfl, h1,
          by simp [handle_balance_update, hft, h1]⟩

/-- Exhaustive description of `_handle_balance_reset`. -/
theorem handle_balance_reset_spec (st : BankState) (slug : String) :
    ((handle_balance_reset st slug).error ≠ none ∧
      (handle_balance_reset st slug).state = st ∧
      (handle_balance_reset st slug).entries = []) ∨
    (∃ target, find_account st slug false = some target ∧
      handle_balance_reset st slug =
        ⟨set_balance st slug (quantize_amount 0), [], none⟩) := by
  cases hft : find_account st slug false with
  | none => left; simp [handle_balance_reset, hft]
  | some target =>
    right
    exact ⟨target, rfl, by simp [handle_balance_reset, hft]⟩

theorem validate_open_deposit_inr {name : String} {minimum : ℚ}
    {raw : Option ℚ} {d : ℚ}
    (h : validate_open_deposit name minimum raw = Sum.inr d) :
    ∃ r, raw = some r ∧ d = quantize_amount r ∧
      ¬d < quantize_amount minimum ∧ ¬d ≤ 0 := by
  cases raw with
  | none => simp [validate_open_deposit] at h
  | some r =>
    unfold validate_open_deposit at h
    dsimp only at h
    split_ifs at h with h1 h2
    rw [Sum.inr.injEq] at h
    exact ⟨r, rfl, h.symm, by rw [h] at h1; exact h1, by rw [h] at h2; exact h2⟩

theorem validate_open_inr {st : BankState} {slug name : String}
    {minimum : ℚ} {raw : Option ℚ} {s : String × ℚ × Bool}
    (h : validate_open st slug name minimum raw = Sum.inr s) :
    s.1 = slug ∧ 0 < s.2.1 ∧ quantize_amount s.2.1 = s.2.1 := by
  unfold validate_open at h
  have main : ∀ b : Bool,
      (validate_open_deposit name minimum raw).elim Sum.inl
        (fun d => Sum.inr (slug, d, b)) = Sum.inr s →
      s.1 = slug ∧ 0 < s.2.1 ∧ quantize_amount s.2.1 = s.2.1 := by
    intro b hb
    cases hd : validate_open_deposit name minimum raw with
    | inl msg => rw [hd] at hb; cases hb
    | inr d =>
      rw [hd] at hb
      simp only [Sum.elim_inr, Sum.inr.injEq] at hb
      obtain ⟨r, _, hdq, _, hpos⟩ := validate_open_deposit_inr hd
      rw [← hb]
      refine ⟨rfl, by simpa using not_le.mp hpos, ?_⟩
      rw [hdq]
      exact quantize_idem r
  cases hslot : slot_of st slug with
  | none =>
    rw [hslot] at h
    exact main false h
  | some a =>
    rw [hslot] at h
    dsimp only at h
    split_ifs at h with hclosed
    exact main true h

theorem open_selections_mem {st : BankState} {settings : BankSettings}
    {req : OpenRequest} {s : String × ℚ × Bool}
    (hs : s ∈ open_selections st settings req) :
    s.1 = "checking" ∨ s.1 = "savings" := by
  unfold open_selections at hs
  rw [List.mem_filterMap] at hs
  obtain ⟨x, hx, hgx⟩ := hs
  have hxr : x = Sum.inr s := by
    cases x with
    | inl v => simp [Sum.getRight?] at hgx
    | inr v =>
      simp only [Sum.getRight?, Option.some_inj] at hgx
      rw [hgx]
  subst hxr
  unfold open_validations at hx
  rw [List.mem_append] at hx
  rcases hx with hx | hx
  · cases hreq : req.checking with
    | none => rw [hreq] at hx; cases hx
    | some raw =>
      rw [hreq] at hx
      rw [List.mem_singleton] at hx
      exact Or.inl (validate_open_inr hx.symm).1
  · cases hreq : req.savings with
    | none => rw [hreq] at hx; cases hx
    | some raw =>
      rw [hreq] at hx
      rw [List.mem_singleton] at hx
      exact Or.inr (validate_open_inr hx.symm).1

theorem open_selections_amounts {st : BankState} {settings : BankSettings}
    {req : OpenRequest} {s : String × ℚ × Bool}
    (hs : s ∈ open_selections st settings req) :
    0 < s.2.1 ∧ quantize_amount s.2.1 = s.2.1 := by
  unfold open_selections at hs
  rw [List.mem_filterMap] at hs
  obtain ⟨x, hx, hgx⟩ := hs
  have hxr : x = Sum.inr s := by
    cases x with
    | inl v => simp [Sum.getRight?] at hgx
    | inr v =>
      simp only [Sum.getRight?, Option.some_inj] at hgx
      rw [hgx]
  subst hxr
  unfold open_validations at hx
  rw [List.mem_append] at hx
  rcases hx with hx | hx
  · cases hreq : req.checking with
    | none => rw [hreq] at hx; cases hx
    | some raw =>
      rw [hreq] at hx
      rw [List.mem_singleton] at hx
      exact (validate_open_inr hx.symm).2
  · cases hreq : req.savings with
    | none => rw [hreq] at hx; cases hx
    | some raw =>
      rw [hreq] at hx
      rw [List.mem_singleton] at hx
      exact (validate_open_inr hx.symm).2

theorem install_hand (st : BankState) (slug : String) (amount : ℚ) :
    (install_open_selection st slug amount).hand = st.hand := by
  unfold install_open_selection
  split_ifs <;> rfl

theorem open_apply_foldl_hand (sels : List (String × ℚ × Bool)) :
    ∀ (acc : BankState × List LedgerEntry),
      (sels.foldl
        (fun acc sel =>
          (install_open_selection acc.1 sel.1 sel.2.1,
            acc.2 ++ [open_entry sel])) acc).1.hand = acc.1.hand := by
  induction sels with
  | nil => intro acc; rfl
  | cons s rest ih =>
    intro acc
    rw [List.foldl_cons, ih]
    exact install_hand _ _ _

theorem open_apply_foldl_entries (sels : List (String × ℚ × Bool)) :
    ∀ (acc : BankState × List LedgerEntry),
      (sels.foldl
        (fun acc sel =>
          (install_open_selection acc.1 sel.1 sel.2.1,
            acc.2 ++ [open_entry sel])) acc).2 =
        acc.2 ++ sels.map open_entry := by
  induction sels with
  | nil => intro acc; simp
  | cons s rest ih =>
    intro acc
    rw [List.foldl_cons, ih]
    simp

theorem nonneg_install {st : BankState} {amount : ℚ} (slug : String)
    (hn : NonNegState st) (ha : 0 ≤ amount) :
    NonNegState (install_open_selection st slug amount) := by
  obtain ⟨hh, hc, hs⟩ := hn
  unfold install_open_selection
  split_ifs
  · refine ⟨hh, ?_, hs⟩
    intro a ha'
    rw [Option.some_inj] at ha'
    rw [← ha']
    exact quantize_nonneg ha
  · refine ⟨hh, hc, ?_⟩
    intro a ha'
    rw [Option.some_inj] at ha'
    rw [← ha']
    exact quantize_nonneg ha

theorem open_apply_foldl_nonneg (sels : List (String × ℚ × Bool))
    (hsel : ∀ s ∈ sels, 0 ≤ s.2.1) :
    ∀ (acc : BankState × List LedgerEntry), NonNegState acc.1 →
      NonNegState (sels.foldl
        (fun acc sel =>
          (install_open_selection acc.1 sel.1 sel.2.1,
            acc.2 ++ [open_entry sel])) acc).1 := by
  induction sels with
  | nil => intro acc h; exact h
  | cons s rest ih =>
    intro acc h
    rw [List.foldl_cons]
    refine ih (fun x hx => hsel x (List.mem_cons_of_mem _ hx)) _ ?_
    exact nonneg_install s.1 h (hsel s (List.mem_cons_self _ _))


/-- The stored balances of the three account rows (the quantity tracked
by the ledger-entry bookkeeping invariant). -/
def state_balances (st : BankState) : ℚ × Option ℚ × Option ℚ :=
  (st.hand, st.checking.map SubAccount.balance, st.savings.map SubAccount.balance)

theorem close_slot_hand (st : BankState) (slug : String) (a : SubAccount) :
    (close_slot st slug a).hand = st.hand := by
  unfold close_slot
  split_ifs <;> rfl

theorem nonneg_close_slot {st : BankState} (slug : String) (a : SubAccount)
    (hn : NonNegState st) : NonNegState (close_slot st slug a) := by
  obtain ⟨hh, hc, hs⟩ := hn
  unfold close_slot
  split_ifs
  · refine ⟨hh, ?_, hs⟩
    intro a' ha'
    rw [Option.some_inj] at ha'
    rw [← ha']
  · refine ⟨hh, hc, ?_⟩
    intro a' ha'
    rw [Option.some_inj] at ha'
    rw [← ha']

theorem close_sweep_foldl_hand (l : List (String × SubAccount)) :
    ∀ (acc : BankState × List LedgerEntry × ℚ),
      (l.foldl
        close_step acc).1.hand = acc.1.hand := by
  induction l with
  | nil => intro acc; rfl
  | cons x rest ih =>
    intro acc
    rw [List.foldl_cons, ih]
    exact close_slot_hand _ _ _

theorem close_sweep_foldl_total (l : List (String × SubAccount)) :
    ∀ (acc : BankState × List LedgerEntry × ℚ),
      acc.2.2 ≤ (l.foldl
        close_step acc).2.2 := by
  induction l with
  | nil => intro acc; exact le_refl _
  | cons x rest ih =>
    intro acc
    rw [List.foldl_cons]
    refine le_trans ?_ (ih _)
    by_cases hb : 0 < quantize_amount x.2.balance
    · simp only [close_step, hb, if_true]
      linarith
    · simp only [close_step, hb, if_false]
      exact le_refl _

theorem close_sweep_foldl_nonneg (l : List (String × SubAccount)) :
    ∀ (acc : BankState × List LedgerEntry × ℚ), NonNegState acc.1 →
      NonNegState (l.foldl
        close_step acc).1 := by
  induction l with
  | nil => intro acc h; exact h
  | cons x rest ih =>
    intro acc h
    rw [List.foldl_cons]
    exact ih _ (nonneg_close_slot x.1 x.2 h)

theorem close_sweep_foldl_entries_prefix (l : List (String × SubAccount)) :
    ∀ (acc : BankState × List LedgerEntry × ℚ),
      ∃ extra, (l.foldl
        close_step acc).2.1 =
        acc.2.1 ++ extra := by
  induction l with
  | nil => intro acc; exact ⟨[], by simp⟩
  | cons x rest ih =>
    intro acc
    rw [List.foldl_cons]
    obtain ⟨extra, hextra⟩ := ih
      (close_step acc x)
    rw [hextra]
    by_cases hb : 0 < quantize_amount x.2.balance
    · simp only [close_step, hb, if_true]
      refine ⟨⟨x.1, "Account Closed",
        "Account closed and funds moved to cash.",
        Direction.debit, quantize_amount x.2.balance⟩ ::
        ⟨"hand", x.2.name ++ " Closure Transfer",
        "Funds from " ++ x.2.name ++ " moved to cash during closure.",
        Direction.credit, quantize_amount x.2.balance⟩ :: extra, ?_⟩
      simp
    · simp only [close_step, hb, if_false]
      exact ⟨extra, rfl⟩

theorem close_sweep_entries_nil (l : List (String × SubAccount)) :
    ∀ (acc : BankState × List LedgerEntry × ℚ),
      (l.foldl close_step acc).2.1 = acc.2.1 →
      (∀ x ∈ l, ¬0 < quantize_amount x.2.balance) ∧
        (l.foldl close_step acc).2.2 = acc.2.2 := by
  induction l with
  | nil => intro acc _; exact ⟨by simp, rfl⟩
  | cons x rest ih =>
    intro acc hent
    rw [List.foldl_cons] at hent ⊢
    by_cases hb : 0 < quantize_amount x.2.balance
    · exfalso
      obtain ⟨extra, hextra⟩ := close_sweep_foldl_entries_prefix rest (close_step acc x)
      rw [hextra] at hent
      have hstep : (close_step acc x).2.1 = acc.2.1 ++
          [⟨x.1, "Account Closed",
            "Account closed and funds moved to cash.",
            Direction.debit, quantize_amount x.2.balance⟩,
            ⟨"hand", x.2.name ++ " Closure Transfer",
            "Funds from " ++ x.2.name ++ " moved to cash during closure.",
            Direction.credit, quantize_amount x.2.balance⟩] := by
        simp [close_step, hb]
      rw [hstep] at hent
      have hlen := congrArg List.length hent
      simp at hlen
    · have hstep1 : (close_step acc x).2.1 = acc.2.1 := by
        simp [close_step, hb]
      have hstep2 : (close_step acc x).2.2 = acc.2.2 := by
        simp [close_step, hb]
      obtain ⟨hall, htot⟩ := ih (close_step acc x) (by rw [hstep1]; exact hent)
      refine ⟨?_, by rw [htot, hstep2]⟩
      intro y hy
      rcases List.mem_cons.mp hy with hy | hy
      · rw [hy]
        exact hb
      · exact hall y hy

theorem slot_of_close_slot_ne {st : BankState} {slug other : String}
    (a : SubAccount) (hne : other ≠ slug)
    (hslug : slug = "checking" ∨ slug = "savings") :
    slot_of (close_slot st slug a) other = slot_of st other := by
  rcases hslug with h | h
  · subst h
    simp [close_slot, slot_of, hne]
  · subst h
    have hcs : ¬("savings" : String) = "checking" := by decide
    simp [close_slot, slot_of, hne, hcs]

theorem state_balances_close_slot_zero {st : BankState} {slug : String}
    {a : SubAccount} (hslug : slug = "checking" ∨ slug = "savings")
    (hslot : slot_of st slug = some a) (hz : a.balance = 0) :
    state_balances (close_slot st slug a) = state_balances st := by
  rcases hslug with h | h
  · subst h
    have hslot' : st.checking = some a := by simpa [slot_of] using hslot
    simp [state_balances, close_slot, hslot', hz]
  · subst h
    have hcs : ¬("savings" : String) = "checking" := by decide
    have hslot' : st.savings = some a := by simpa [slot_of] using hslot
    simp [state_balances, close_slot, hcs, hslot', hz]

theorem close_sweep_state_balances (l : List (String × SubAccount)) :
    ∀ (acc : BankState × List LedgerEntry × ℚ),
      l.Pairwise (fun a b => a.1 ≠ b.1) →
      (∀ x ∈ l, (x.1 = "checking" ∨ x.1 = "savings") ∧
        slot_of acc.1 x.1 = some x.2 ∧ x.2.balance = 0) →
      state_balances (l.foldl close_step acc).1 = state_balances acc.1 := by
  induction l with
  | nil => intro acc _ _; rfl
  | cons x rest ih =>
    intro acc hpair hcond
    obtain ⟨hhead, htail⟩ := List.pairwise_cons.mp hpair
    obtain ⟨hslug, hslot, hz⟩ := hcond x (List.mem_cons_self _ _)
    rw [List.foldl_cons]
    have hstep : (close_step acc x).1 = close_slot acc.1 x.1 x.2 := rfl
    rw [ih (close_step acc x) htail ?_]
    · rw [hstep]
      exact state_balances_close_slot_zero hslug hslot hz
    · intro y hy
      obtain ⟨hyslug, hyslot, hyz⟩ := hcond y (List.mem_cons_of_mem _ hy)
      refine ⟨hyslug, ?_, hyz⟩
      rw [hstep, slot_of_close_slot_ne x.2 (Ne.symm (hhead y hy)) hslug]
      exact hyslot

theorem closure_pick_eq {st : BankState} {slug : String}
    {x : String × SubAccount} (h : closure_pick st slug = some x) :
    x.1 = slug ∧ slot_of st slug = some x.2 ∧ x.2.is_closed = false ∧
      (slug = "checking" ∨ slug = "savings") := by
  unfold closure_pick at h
  cases hs : slot_of st slug with
  | none => rw [hs] at h; cases h
  | some a =>
    rw [hs] at h
    dsimp only at h
    split_ifs at h with hc
    rw [Option.some_inj] at h
    rw [← h]
    refine ⟨rfl, rfl, by simpa using hc, ?_⟩
    unfold slot_of at hs
    split_ifs at hs with h1 h2
    · exact Or.inl h1
    · exact Or.inr h2

theorem closure_to_close_mem {st : BankState} {target : String}
    {x : String × SubAccount} (hx : x ∈ closure_to_close st target) :
    slot_of st x.1 = some x.2 ∧ x.2.is_closed = false ∧
      (x.1 = "checking" ∨ x.1 = "savings") := by
  unfold closure_to_close at hx
  rw [List.mem_filterMap] at hx
  obtain ⟨slug, _, hpick⟩ := hx
  obtain ⟨h1, h2, h3, h4⟩ := closure_pick_eq hpick
  subst h1
  exact ⟨h2, h3, h4⟩

theorem closure_to_close_pairwise (st : BankState) (target : String) :
    (closure_to_close st target).Pairwise (fun a b => a.1 ≠ b.1) := by
  unfold closure_to_close
  have hreq : (closure_requested target).Pairwise (fun a b : String => a ≠ b) := by
    unfold closure_requested
    split_ifs
    · refine List.pairwise_cons.mpr ⟨?_, ?_⟩
      · intro b hb
        rw [List.mem_singleton] at hb
        rw [hb]
        decide
      · simp
    · simp
  refine List.Pairwise.filterMap (closure_pick st) ?_ hreq
  intro a a' hne x hx y hy
  rw [Option.mem_def] at hx hy
  rw [(closure_pick_eq hx).1, (closure_pick_eq hy).1]
  exact hne

/-- Exhaustive description of `_handle_account_closure`. -/
theorem handle_account_closure_spec (st : BankState) (settings : BankSettings)
    (target : String) :
    ((handle_account_closure st settings target).error ≠ none ∧
      (handle_account_closure st settings target).state = st ∧
      (handle_account_closure st settings target).entries = []) ∨
    ((target = "all" ∨ target = "checking" ∨ target = "savings") ∧
      closure_to_close st target ≠ [] ∧
      handle_account_closure st settings target =
        closure_commit st settings target) := by
  by_cases h1 : target = "all" ∨ target = "checking" ∨ target = "savings"
  · by_cases h2 : closure_to_close st target = []
    · left
      simp [handle_account_closure, h1, h2]
    · right
      exact ⟨h1, h2, by simp [handle_account_closure, h1, h2]⟩
  · left
    simp [handle_account_closure, h1]

/-- Exhaustive description of `api_open_accounts`. -/
theorem api_open_accounts_spec (st : BankState) (settings : BankSettings)
    (req : OpenRequest) :
    ((api_open_accounts st settings req).error ≠ none ∧
      (api_open_accounts st settings req).state = st ∧
      (api_open_accounts st settings req).entries = []) ∨
    (open_errors st settings req = [] ∧
      open_selections st settings req ≠ [] ∧
      ¬st.hand <
        ((open_selections st settings req).map (fun s => s.2.1)).sum ∧
      api_open_accounts st settings req =
        ⟨⟨quantize_amount
            ((open_apply st (open_selections st settings req)).1.hand -
              ((open_selections st settings req).map (fun s => s.2.1)).sum),
          (open_apply st (open_selections st settings req)).1.checking,
          (open_apply st (open_selections st settings req)).1.savings⟩,
          (open_apply st (open_selections st settings req)).2, none⟩) := by
  by_cases h1 : open_errors st settings req = []
  · by_cases h2 : open_selections st settings req = []
    · left
      simp [api_open_accounts, h1, h2]
    · by_cases h3 : st.hand <
          ((open_selections st settings req).map (fun s => s.2.1)).sum
      · left
        simp [api_open_accounts, h1, h2, h3]
      · right
        exact ⟨h1, h2, h3, by simp [api_open_accounts, h1, h2, h3]⟩
  · left
    simp [api_open_accounts, h1]

/-- C4: For every batch account-opening request, all per-account
validation (already-open, deposit parses, deposit at or above the
configured minimum and positive) is performed before any mutation, and if
any validation fails or the sum of requested deposits exceeds the current
cash balance, the whole batch is rejected: no account is created or
reactivated, no ledger entry is written, and the cash balance is
unchanged. -/
theorem C4_open_batch_atomic (st : BankState) (settings : BankSettings)
    (req : OpenRequest) :
    ((api_open_accounts st settings req).error ≠ none →
      (api_open_accounts st settings req).state = st ∧
      (api_open_accounts st settings req).entries = []) ∧
    (open_errors st settings req ≠ [] →
      (api_open_accounts st settings req).error ≠ none) ∧
    (open_errors st settings req = [] →
      open_selections st settings req ≠ [] →
      st.hand < ((open_selections st settings req).map (fun s => s.2.1)).sum →
      api_open_accounts st settings req =
        ⟨st, [], some (OpError.insufficientCash st.hand)⟩) ∧
    (∀ raw, req.checking = some (some raw) →
      quantize_amount raw < quantize_amount settings.checking_opening_deposit →
      (api_open_accounts st settings req).error ≠ none) := by
  refine ⟨?_, ?_, ?_, ?_⟩
  · intro herr
    rcases api_open_accounts_spec st settings req with ⟨_, hst, hent⟩ | ⟨_, _, _, hres⟩
    · exact ⟨hst, hent⟩
    · rw [hres] at herr
      exact absurd rfl herr
  · intro herr
    simp [api_open_accounts, herr]
  · intro h1 h2 h3
    simp [api_open_accounts, h1, h2, h3]
  · intro raw hreq hlt
    have hleft : ∃ msg, validate_open st "checking" "Checking Account"
        settings.checking_opening_deposit (some raw) = Sum.inl msg := by
      unfold validate_open
      cases hslot : slot_of st "checking" with
      | none =>
        dsimp only
        cases hdep : validate_open_deposit "Checking Account"
            settings.checking_opening_deposit (some raw) with
        | inl msg => exact ⟨msg, rfl⟩
        | inr d =>
          exfalso
          obtain ⟨r, hr, hdq, hmin, _⟩ := validate_open_deposit_inr hdep
          rw [Option.some_inj] at hr
          rw [hr] at hlt
          rw [← hdq] at hlt
          exact hmin hlt
      | some a =>
        dsimp only
        by_cases hclosed : a.is_closed = false
        · rw [if_pos hclosed]
          exact ⟨_, rfl⟩
        · rw [if_neg hclosed]
          cases hdep : validate_open_deposit "Checking Account"
              settings.checking_opening_deposit (some raw) with
          | inl msg => exact ⟨msg, rfl⟩
          | inr d =>
            exfalso
            obtain ⟨r, hr, hdq, hmin, _⟩ := validate_open_deposit_inr hdep
            rw [Option.some_inj] at hr
            rw [hr] at hlt
            rw [← hdq] at hlt
            exact hmin hlt
    obtain ⟨msg, hmsg⟩ := hleft
    have herr : open_errors st settings req ≠ [] := by
      unfold open_errors open_validations
      rw [hreq]
      dsimp only
      rw [hmsg]
      simp
    simp [api_open_accounts, herr]

/-- Witness for C4: a below-minimum checking deposit is rejected with the
state untouched. -/
theorem C4_open_batch_atomic_witness :
    let st : BankState := ⟨500, none, none⟩
    let settings : BankSettings := ⟨100, 50, 35, 25, 15⟩
    let req : OpenRequest := ⟨some (some 99), none⟩
    (api_open_accounts st settings req).error ≠ none ∧
    (api_open_accounts st settings req).state = st ∧
    (api_open_accounts st settings req).entries = [] := by
  intro st settings req
  have h := C4_open_batch_atomic st settings req
  have herr : (api_open_accounts st settings req).error ≠ none := by
    refine h.2.2.2 99 rfl ?_
    norm_num [quantize_amount, roundHalfUp]
  exact ⟨herr, (h.1 herr).1, (h.1 herr).2⟩

theorem closure_commit_error (st : BankState) (settings : BankSettings)
    (target : String) : (closure_commit st settings target).error = none := by
  simp only [closure_commit]
  split_ifs <;> rfl

theorem closure_commit_entries_nil {st : BankState} {settings : BankSettings}
    {target : String} (hq : QuantizedState st) (hn : NonNegState st)
    (hent : (closure_commit st settings target).entries = []) :
    state_balances (closure_commit st settings target).state =
      state_balances st := by
  obtain ⟨hqh, hqc, hqs⟩ := hq
  obtain ⟨hnh, hnc, hns⟩ := hn
  have hpair := closure_to_close_pairwise st target
  simp only [closure_commit] at hent ⊢
  obtain ⟨D, hD⟩ : ∃ D, close_sweep st (closure_to_close st target) = D :=
    ⟨_, rfl⟩
  rw [hD] at hent ⊢
  have hfoldl : (closure_to_close st target).foldl close_step (st, [], 0) = D := hD
  have main : D.2.1 = [] →
      state_balances (⟨if 0 < D.2.2 then quantize_amount (D.1.hand + D.2.2)
        else D.1.hand, D.1.checking, D.1.savings⟩ : BankState) =
      state_balances st := by
    intro hnil
    obtain ⟨hall, htotal⟩ := close_sweep_entries_nil (closure_to_close st target)
      (st, [], 0) (by rw [hfoldl]; exact hnil)
    rw [hfoldl] at htotal
    have hD22 : D.2.2 = 0 := htotal
    rw [hD22]
    have hhand : D.1.hand = st.hand := by
      rw [← hfoldl]
      exact close_sweep_foldl_hand _ _
    have hbal : state_balances D.1 = state_balances st := by
      rw [← hfoldl]
      refine close_sweep_state_balances (closure_to_close st target)
        (st, [], 0) hpair ?_
      intro x hx
      obtain ⟨hslot, hopen, hslug⟩ := closure_to_close_mem hx
      refine ⟨hslug, hslot, ?_⟩
      have hxq : IsQuantized x.2.balance := by
        rcases slot_of_eq hslot with h | h
        · exact hqc x.2 h
        · exact hqs x.2 h
      have hxn : 0 ≤ x.2.balance := by
        rcases slot_of_eq hslot with h | h
        · exact hnc x.2 h
        · exact hns x.2 h
      have hnotpos := hall x hx
      rw [quantize_fixed hxq] at hnotpos
      exact le_antisymm (not_lt.mp hnotpos) hxn
    have hshape : (⟨if 0 < (0 : ℚ) then quantize_amount (D.1.hand + 0)
        else D.1.hand, D.1.checking, D.1.savings⟩ : BankState) = D.1 := by
      have hz : ¬(0 : ℚ) < 0 := lt_irrefl 0
      rw [if_neg hz]
    rw [hshape, hbal]
  by_cases hfee : 0 < closure_fee_for settings target
  · rw [if_pos hfee] at hent ⊢
    by_cases hav : 0 <
        min (quantize_amount (if 0 < D.2.2 then
          quantize_amount (D.1.hand + D.2.2) else D.1.hand))
        (closure_fee_for settings target)
    · rw [if_pos hav] at hent
      simp at hent
    · rw [if_neg hav] at hent ⊢
      exact main hent
  · rw [if_neg hfee] at hent ⊢
    exact main hent

theorem closure_commit_nonneg {st : BankState} (settings : BankSettings)
    (target : String) (hq : QuantizedState st) (hn : NonNegState st) :
    NonNegState (closure_commit st settings target).state := by
  obtain ⟨hqh, _, _⟩ := hq
  simp only [closure_commit]
  obtain ⟨D, hD⟩ : ∃ D, close_sweep st (closure_to_close st target) = D :=
    ⟨_, rfl⟩
  rw [hD]
  have hfoldl : (closure_to_close st target).foldl close_step (st, [], 0) = D := hD
  have hDnn : NonNegState D.1 := by
    rw [← hfoldl]
    exact close_sweep_foldl_nonneg _ _ hn
  obtain ⟨hDh, hDc, hDs⟩ := hDnn
  have hhand : D.1.hand = st.hand := by
    rw [← hfoldl]
    exact close_sweep_foldl_hand _ _
  have htot : 0 ≤ D.2.2 := by
    rw [← hfoldl]
    exact close_sweep_foldl_total _ (st, [], 0)
  have hcash1n : 0 ≤ (if 0 < D.2.2 then quantize_amount (D.1.hand + D.2.2)
      else D.1.hand) := by
    split_ifs with h
    · exact quantize_nonneg (by linarith)
    · exact hDh
  have hcash1q : IsQuantized (if 0 < D.2.2 then
      quantize_amount (D.1.hand + D.2.2) else D.1.hand) := by
    split_ifs with h
    · exact quantize_isQuantized _
    · rw [hhand]
      exact hqh
  by_cases hfee : 0 < closure_fee_for settings target
  · rw [if_pos hfee]
    by_cases hav : 0 <
        min (quantize_amount (if 0 < D.2.2 then
          quantize_amount (D.1.hand + D.2.2) else D.1.hand))
        (closure_fee_for settings target)
    · rw [if_pos hav]
      refine ⟨?_, hDc, hDs⟩
      refine quantize_nonneg ?_
      have hle : min (quantize_amount (if 0 < D.2.2 then
          quantize_amount (D.1.hand + D.2.2) else D.1.hand))
          (closure_fee_for settings target) ≤
          (if 0 < D.2.2 then quantize_amount (D.1.hand + D.2.2)
            else D.1.hand) := by
        refine le_trans (min_le_left _ _) ?_
        rw [quantize_fixed hcash1q]
      linarith
    · rw [if_neg hav]
      exact ⟨hcash1n, hDc, hDs⟩
  · rw [if_neg hfee]
    exact ⟨hcash1n, hDc, hDs⟩

/-- C3 counterexample: the settings-page balance update commits a changed
balance while writing no ledger entry, so the claim as stated is false. -/
theorem C3_counterexample :
    (handle_balance_update
      ⟨500, some ⟨"Checking Account", 100, false⟩, none⟩
      "checking" (some 250)).error = none ∧
    (handle_balance_update
      ⟨500, some ⟨"Checking Account", 100, false⟩, none⟩
      "checking" (some 250)).entries = [] ∧
    (handle_balance_update
      ⟨500, some ⟨"Checking Account", 100, false⟩, none⟩
      "checking" (some 250)).state =
      ⟨500, some ⟨"Checking Account", 250, false⟩, none⟩ ∧
    state_balances (handle_balance_update
      ⟨500, some ⟨"Checking Account", 100, false⟩, none⟩
      "checking" (some 250)).state ≠
      state_balances ⟨500, some ⟨"Checking Account", 100, false⟩, none⟩ := by
  have h250 : quantize_amount 250 = 250 := quantize_fixed ⟨25000, by norm_num⟩
  have hch : ("checking" : String) ≠ "hand" := by decide
  refine ⟨?_, ?_, ?_, ?_⟩ <;>
    norm_num [handle_balance_update, find_account, slot_of, set_balance,
      state_balances, h250, hch, Prod.ext_iff]

/-- C3 amended: every operation that changes an account's stored balance
also writes a matching ledger entry in the same atomic operation, with
the exception of the manual settings-page balance update and reset
handlers (and interest/fee postings), which write no ledger entry: the
transfer, deposit, withdraw and batch-open handlers always write at least
one entry on success, and a closure that writes no entry leaves every
stored balance unchanged. -/
theorem C3_amended_balance_mutations_logged (st : BankState)
    (hq : QuantizedState st) (hn : NonNegState st) :
    (∀ src dst raw, (api_move st src dst raw).error = none →
      (api_move st src dst raw).entries ≠ []) ∧
    (∀ dst raw, (api_deposit st dst raw).error = none →
      (api_deposit st dst raw).entries ≠ []) ∧
    (∀ src raw, (api_withdraw st src raw).error = none →
      (api_withdraw st src raw).entries ≠ []) ∧
    (∀ settings req, (api_open_accounts st settings req).error = none →
      (api_open_accounts st settings req).entries ≠ []) ∧
    (∀ settings target,
      (handle_account_closure st settings target).error = none →
      (handle_account_closure st settings target).entries = [] →
      state_balances (handle_account_closure st settings target).state =
        state_balances st) := by
  refine ⟨?_, ?_, ?_, ?_, ?_⟩
  · intro src dst raw hsucc
    rcases api_move_spec st src dst raw with ⟨herr, _, _⟩ |
      ⟨q, source, destination, _, _, hne, hfs, hfd, _, hres⟩
    · exact absurd hsucc herr
    · rw [hres]
      have hslugs : source.slug ≠ destination.slug := by
        rw [find_account_slug hfs, find_account_slug hfd]
        exact hne
      have hent : (apply_transfer source destination (quantize_amount q)).2.2 =
          create_transfer_entries source destination
            (quantize_amount (quantize_amount q)) := rfl
      rw [hent]
      exact create_transfer_entries_ne_nil hslugs _
  · intro dst raw hsucc
    rcases api_deposit_spec st dst raw with ⟨herr, _, _⟩ |
      ⟨q, destination, destination1, _, _, _, _, _, hres⟩
    · exact absurd hsucc herr
    · rw [hres]
      simp
  · intro src raw hsucc
    rcases api_withdraw_spec st src raw with ⟨herr, _, _⟩ |
      ⟨q, source, _, _, _, _, hres⟩
    · exact absurd hsucc herr
    · rw [hres]
      simp
  · intro settings req hsucc
    rcases api_open_accounts_spec st settings req with ⟨herr, _, _⟩ |
      ⟨_, hsel, _, hres⟩
    · exact absurd hsucc herr
    · rw [hres]
      have hent : (open_apply st (open_selections st settings req)).2 =
          [] ++ (open_selections st settings req).map open_entry :=
        open_apply_foldl_entries _ _
      rw [hent]
      simpa using hsel
  · intro settings target hsucc hent
    rcases handle_account_closure_spec st settings target with ⟨herr, _, _⟩ |
      ⟨_, _, hres⟩
    · exact absurd hsucc herr
    · rw [hres] at hent ⊢
      exact closure_commit_entries_nil hq hn hent

/-- Witness for the amended C3 at a concrete state and transfer. -/
theorem C3_amended_balance_mutations_logged_witness :
    let st : BankState := ⟨400, some ⟨"Checking Account", 100, false⟩, none⟩
    (api_move st "checking" "hand" (some 30)).error = none →
    (api_move st "checking" "hand" (some 30)).entries ≠ [] := by
  intro st
  exact (C3_amended_balance_mutations_logged st
    ⟨⟨40000, by norm_num⟩,
      fun a ha => by rw [Option.some_inj] at ha; rw [← ha]; exact ⟨10000, by norm_num⟩,
      fun a ha => by cases ha⟩
    ⟨by norm_num,
      fun a ha => by rw [Option.some_inj] at ha; rw [← ha]; norm_num,
      fun a ha => by cases ha⟩).1 "checking" "hand" (some 30)

theorem IsQuantized.min {a b : ℚ} (ha : IsQuantized a) (hb : IsQuantized b) :
    IsQuantized (min a b) := by
  rcases le_total a b with h | h
  · rw [min_eq_left h]
    exact ha
  · rw [min_eq_right h]
    exact hb

theorem slot_of_close_slot_self {st : BankState} {target : String}
    (a : SubAccount) (htarget : target = "checking" ∨ target = "savings") :
    slot_of (close_slot st target a) target = some ⟨a.name, 0, true⟩ := by
  rcases htarget with h | h
  · subst h
    simp [close_slot, slot_of]
  · subst h
    have hcs : ¬("savings" : String) = "checking" := by decide
    simp [close_slot, slot_of, hcs]

theorem closure_requested_single {target : String}
    (htarget : target = "checking" ∨ target = "savings") :
    closure_requested target = [target] := by
  rcases htarget with h | h <;> subst h <;> simp [closure_requested]

/-- C5: For every closure of an open account with balance b > 0 under a
nonzero configured closure fee: exactly two ledger entries are written
for the sweep (a debit of b on the closed account and a credit of b on
cash), the account's balance is set to zero and its closed flag set, the
fee collected equals min(fee, cash_before_sweep + b) so cash is never
driven negative, a "Closure Fee" debit entry on cash is written exactly
when the collected fee is nonzero (and here it is nonzero), and cash
increases by b minus the collected fee. -/
theorem C5_single_closure_fee (st : BankState) (settings : BankSettings)
    (target : String) (acc : SubAccount)
    (htarget : target = "checking" ∨ target = "savings")
    (hacc : slot_of st target = some acc)
    (hopen : acc.is_closed = false)
    (hb : 0 < acc.balance) (hbq : IsQuantized acc.balance)
    (hfee : 0 < closure_fee_for settings target)
    (hstq : IsQuantized st.hand) (hstn : 0 ≤ st.hand) :
    (handle_account_closure st settings target).error = none ∧
    (handle_account_closure st settings target).entries =
      [⟨target, "Account Closed",
        "Account closed and funds moved to cash.",
        Direction.debit, acc.balance⟩,
        ⟨"hand", acc.name ++ " Closure Transfer",
        "Funds from " ++ acc.name ++ " moved to cash during closure.",
        Direction.credit, acc.balance⟩,
        ⟨"hand", "Closure Fee",
        fee_label_for target ++ " closure fee collected during account closure.",
        Direction.debit,
        min (closure_fee_for settings target) (st.hand + acc.balance)⟩] ∧
    0 < min (closure_fee_for settings target) (st.hand + acc.balance) ∧
    slot_of (handle_account_closure st settings target).state target =
      some ⟨acc.name, 0, true⟩ ∧
    (handle_account_closure st settings target).state.hand =
      st.hand + acc.balance -
        min (closure_fee_for settings target) (st.hand + acc.balance) ∧
    0 ≤ (handle_account_closure st settings target).state.hand := by
  have hqb : quantize_amount acc.balance = acc.balance := quantize_fixed hbq
  have hpick : closure_pick st target = some (target, acc) := by
    unfold closure_pick
    rw [hacc]
    dsimp only
    rw [hopen]
    simp
  have htc : closure_to_close st target = [(target, acc)] := by
    unfold closure_to_close
    rw [closure_requested_single htarget]
    simp [hpick]
  have hsweep : close_sweep st (closure_to_close st target) =
      (close_slot st target acc,
        [⟨target, "Account Closed",
          "Account closed and funds moved to cash.",
          Direction.debit, acc.balance⟩,
          ⟨"hand", acc.name ++ " Closure Transfer",
          "Funds from " ++ acc.name ++ " moved to cash during closure.",
          Direction.credit, acc.balance⟩], acc.balance) := by
    rw [htc]
    show close_step (st, [], 0) (target, acc) = _
    simp [close_step, hqb, hb]
  have hcashq : IsQuantized (st.hand + acc.balance) := hstq.add hbq
  have hcash1 : quantize_amount (st.hand + acc.balance) = st.hand + acc.balance :=
    quantize_fixed hcashq
  have hfeeq : IsQuantized (closure_fee_for settings target) := by
    unfold closure_fee_for
    split_ifs <;> exact quantize_isQuantized _
  have havq : IsQuantized
      (min (st.hand + acc.balance) (closure_fee_for settings target)) :=
    hcashq.min hfeeq
  have hpos : 0 < min (st.hand + acc.balance) (closure_fee_for settings target) :=
    lt_min (by linarith) hfee
  have hvalid : target = "all" ∨ target = "checking" ∨ target = "savings" :=
    Or.inr htarget
  have hres : handle_account_closure st settings target =
      closure_commit st settings target := by
    unfold handle_account_closure
    rw [if_neg (not_not_intro hvalid), if_neg (by rw [htc]; simp)]
  have hcompute : closure_commit st settings target =
      ⟨⟨quantize_amount (st.hand + acc.balance -
          min (st.hand + acc.balance) (closure_fee_for settings target)),
        (close_slot st target acc).checking,
        (close_slot st target acc).savings⟩,
        [⟨target, "Account Closed",
          "Account closed and funds moved to cash.",
          Direction.debit, acc.balance⟩,
          ⟨"hand", acc.name ++ " Closure Transfer",
          "Funds from " ++ acc.name ++ " moved to cash during closure.",
          Direction.credit, acc.balance⟩,
          ⟨"hand", "Closure Fee",
          fee_label_for target ++
            " closure fee collected during account closure.",
          Direction.debit,
          min (st.hand + acc.balance) (closure_fee_for settings target)⟩],
        none⟩ := by
    simp only [closure_commit, hsweep]
    rw [if_pos hb, close_slot_hand, hcash1, if_pos hfee, hcash1, if_pos hpos]
    simp
  have hhandq : IsQuantized (st.hand + acc.balance -
      min (st.hand + acc.balance) (closure_fee_for settings target)) :=
    hcashq.sub havq
  have hmincomm : min (st.hand + acc.balance) (closure_fee_for settings target) =
      min (closure_fee_for settings target) (st.hand + acc.balance) :=
    min_comm _ _
  rw [hres, hcompute]
  dsimp only
  refine ⟨rfl, ?_, ?_, ?_, ?_, ?_⟩
  · rw [hmincomm]
  · rw [← hmincomm]
    exact hpos
  · have hslot : slot_of
        (⟨quantize_amount (st.hand + acc.balance -
            min (st.hand + acc.balance) (closure_fee_for settings target)),
          (close_slot st target acc).checking,
          (close_slot st target acc).savings⟩ : BankState) target =
        slot_of (close_slot st target acc) target := by
      unfold slot_of
      split_ifs <;> rfl
    rw [hslot]
    exact slot_of_close_slot_self acc htarget
  · rw [quantize_fixed hhandq, hmincomm]
  · rw [quantize_fixed hhandq]
    have hminle : min (st.hand + acc.balance)
        (closure_fee_for settings target) ≤ st.hand + acc.balance :=
      min_le_left _ _
    linarith

/-- Witness for C5: closing an open checking account holding 100 with a
25 closure fee from a 400 cash balance. -/
theorem C5_single_closure_fee_witness :
    let st : BankState := ⟨400, some ⟨"Checking Account", 100, false⟩, none⟩
    let settings : BankSettings := ⟨100, 50, 35, 25, 15⟩
    (handle_account_closure st settings "checking").error = none ∧
    (handle_account_closure st settings "checking").state.hand =
      400 + 100 - min (closure_fee_for settings "checking") (400 + 100) ∧
    0 ≤ (handle_account_closure st settings "checking").state.hand := by
  intro st settings
  have hca : ("checking" : String) ≠ "all" := by decide
  have h := C5_single_closure_fee st settings "checking"
    ⟨"Checking Account", 100, false⟩ (Or.inl rfl) rfl rfl (by norm_num)
    ⟨10000, by norm_num⟩
    (by norm_num [closure_fee_for, hca, quantize_amount, roundHalfUp])
    ⟨40000, by norm_num⟩ (by norm_num)
  exact ⟨h.1, h.2.2.2.2.1, h.2.2.2.2.2⟩

/-- C2: For every account and every operation (transfer, deposit,
withdraw, open, close, balance update/reset), the account's balance is
never negative: an operation requesting more than the available balance
is rejected with an insufficient-funds error before any mutation, and a
rejected or failed operation leaves every balance equal to its
pre-operation value. -/
theorem C2_no_overdraft (st : BankState)
    (hq : QuantizedState st) (hn : NonNegState st) :
    (∀ src dst raw,
      ((api_move st src dst raw).error ≠ none →
        (api_move st src dst raw).state = st) ∧
      ((api_move st src dst raw).error = none →
        NonNegState (api_move st src dst raw).state)) ∧
    (∀ dst raw,
      ((api_deposit st dst raw).error ≠ none →
        (api_deposit st dst raw).state = st) ∧
      ((api_deposit st dst raw).error = none →
        NonNegState (api_deposit st dst raw).state)) ∧
    (∀ src raw,
      ((api_withdraw st src raw).error ≠ none →
        (api_withdraw st src raw).state = st) ∧
      ((api_withdraw st src raw).error = none →
        NonNegState (api_withdraw st src raw).state)) ∧
    (∀ settings req,
      ((api_open_accounts st settings req).error ≠ none →
        (api_open_accounts st settings req).state = st) ∧
      ((api_open_accounts st settings req).error = none →
        NonNegState (api_open_accounts st settings req).state)) ∧
    (∀ settings target,
      ((handle_account_closure st settings target).error ≠ none →
        (handle_account_closure st settings target).state = st) ∧
      ((handle_account_closure st settings target).error = none →
        NonNegState (handle_account_closure st settings target).state)) ∧
    (∀ slug raw,
      ((handle_balance_update st slug raw).error ≠ none →
        (handle_balance_update st slug raw).state = st) ∧
      ((handle_balance_update st slug raw).error = none →
        NonNegState (handle_balance_update st slug raw).state)) ∧
    (∀ slug,
      ((handle_balance_reset st slug).error ≠ none →
        (handle_balance_reset st slug).state = st) ∧
      ((handle_balance_reset st slug).error = none →
        NonNegState (handle_balance_reset st slug).state)) ∧
    (∀ src dst q source destination,
      ¬quantize_amount q ≤ 0 → src ≠ "" → dst ≠ "" → src ≠ dst →
      find_account st src false = some source →
      find_account st dst false = some destination →
      source.balance < quantize_amount q →
      api_move st src dst (some q) =
        ⟨st, [], some (OpError.insufficientFunds source.balance)⟩) ∧
    (∀ dst q destination,
      ¬quantize_amount q ≤ 0 →
      find_account st dst false = some destination →
      st.hand < quantize_amount q →
      api_deposit st dst (some q) =
        ⟨st, [], some (OpError.insufficientFunds st.hand)⟩) ∧
    (∀ src q source,
      ¬quantize_amount q ≤ 0 →
      find_account st src false = some source →
      source.balance < quantize_amount q →
      api_withdraw st src (some q) =
        ⟨st, [], some (OpError.insufficientFunds source.balance)⟩) := by
  refine ⟨?_, ?_, ?_, ?_, ?_, ?_, ?_, ?_, ?_, ?_⟩
  · intro src dst raw
    rcases api_move_spec st src dst raw with ⟨herr, hst, _⟩ |
      ⟨q, source, destination, _, hq0, hne, hfs, hfd, hbal, hres⟩
    · exact ⟨fun _ => hst, fun hsucc => absurd hsucc herr⟩
    · refine ⟨fun herr => absurd (by rw [hres]) herr, fun _ => ?_⟩
      have hqq := quantize_idem q
      have hsq : IsQuantized source.balance :=
        find_account_balance_quantized hq hfs
      have hdq : IsQuantized destination.balance :=
        find_account_balance_quantized hq hfd
      have hsb : (apply_transfer source destination (quantize_amount q)).1.balance =
          source.balance - quantize_amount q := by
        show quantize_amount (source.balance -
          quantize_amount (quantize_amount q)) = _
        rw [hqq, quantize_fixed (hsq.sub (quantize_isQuantized q))]
      have hdb : (apply_transfer source destination (quantize_amount q)).2.1.balance =
          destination.balance + quantize_amount q := by
        show quantize_amount (destination.balance +
          quantize_amount (quantize_amount q)) = _
        rw [hqq, quantize_fixed (hdq.add (quantize_isQuantized q))]
      rw [hres]
      show NonNegState (set_balance (set_balance st src
        (apply_transfer source destination (quantize_amount q)).1.balance) dst
        (apply_transfer source destination (quantize_amount q)).2.1.balance)
      rw [hsb, hdb]
      refine nonneg_set_balance dst (nonneg_set_balance src hn ?_) ?_
      · have := not_lt.mp hbal
        linarith
      · have h1 : 0 ≤ destination.balance := find_account_balance_nonneg hn hfd
        have h2 : 0 < quantize_amount q := not_le.mp hq0
        linarith
  · intro dst raw
    rcases api_deposit_spec st dst raw with ⟨herr, hst, _⟩ |
      ⟨q, destination, destination1, _, hq0, hfd, hcash, hfd1, hres⟩
    · exact ⟨fun _ => hst, fun hsucc => absurd hsucc herr⟩
    · refine ⟨fun herr => absurd (by rw [hres]) herr, fun _ => ?_⟩
      have h1 : 0 ≤ quantize_amount (st.hand - quantize_amount q) :=
        quantize_nonneg (by have := not_lt.mp hcash; linarith)
      have hst1 : NonNegState (set_balance st "hand"
          (quantize_amount (st.hand - quantize_amount q))) :=
        nonneg_set_balance "hand" hn h1
      have h2 : 0 ≤ destination1.balance :=
        find_account_balance_nonneg hst1 hfd1
      have h3 : 0 < quantize_amount q := not_le.mp hq0
      rw [hres]
      exact nonneg_set_balance dst hst1 (quantize_nonneg (by linarith))
  · intro src raw
    rcases api_withdraw_spec st src raw with ⟨herr, hst, _⟩ |
      ⟨q, source, _, hq0, hfs, hbal, hres⟩
    · exact ⟨fun _ => hst, fun hsucc => absurd hsucc herr⟩
    · refine ⟨fun herr => absurd (by rw [hres]) herr, fun _ => ?_⟩
      have h1 : 0 ≤ quantize_amount (source.balance - quantize_amount q) :=
        quantize_nonneg (by have := not_lt.mp hbal; linarith)
      have hst1 : NonNegState (set_balance st src
          (quantize_amount (source.balance - quantize_amount q))) :=
        nonneg_set_balance src hn h1
      have h2 : 0 < quantize_amount q := not_le.mp hq0
      rw [hres]
      exact nonneg_set_balance "hand" hst1
        (quantize_nonneg (by have := hst1.1; linarith))
  · intro settings req
    rcases api_open_accounts_spec st settings req with ⟨herr, hst, _⟩ |
      ⟨_, _, hcash, hres⟩
    · exact ⟨fun _ => hst, fun hsucc => absurd hsucc herr⟩
    · refine ⟨fun herr => absurd (by rw [hres]) herr, fun _ => ?_⟩
      have happ : NonNegState (open_apply st (open_selections st settings req)).1 :=
        open_apply_foldl_nonneg _
          (fun s hs => le_of_lt (open_selections_amounts hs).1) _ hn
      have hhand : (open_apply st (open_selections st settings req)).1.hand =
          st.hand := open_apply_foldl_hand _ _
      rw [hres]
      refine ⟨?_, happ.2.1, happ.2.2⟩
      rw [hhand]
      exact quantize_nonneg (by have := not_lt.mp hcash; linarith)
  · intro settings target
    rcases handle_account_closure_spec st settings target with ⟨herr, hst, _⟩ |
      ⟨_, _, hres⟩
    · exact ⟨fun _ => hst, fun hsucc => absurd hsucc herr⟩
    · refine ⟨?_, fun _ => ?_⟩
      · intro herr
        rw [hres, closure_commit_error] at herr
        exact absurd rfl herr
      · rw [hres]
        exact closure_commit_nonneg settings target hq hn
  · intro slug raw
    rcases handle_balance_update_spec st slug raw with ⟨herr, hst, _⟩ |
      ⟨q, target, _, _, hq0, hres⟩
    · exact ⟨fun _ => hst, fun hsucc => absurd hsucc herr⟩
    · refine ⟨fun herr => absurd (by rw [hres]) herr, fun _ => ?_⟩
      rw [hres]
      exact nonneg_set_balance slug hn (not_lt.mp hq0)
  · intro slug
    rcases handle_balance_reset_spec st slug with ⟨herr, hst, _⟩ |
      ⟨target, _, hres⟩
    · exact ⟨fun _ => hst, fun hsucc => absurd hsucc herr⟩
    · refine ⟨fun herr => absurd (by rw [hres]) herr, fun _ => ?_⟩
      rw [hres]
      exact nonneg_set_balance slug hn (quantize_nonneg (le_refl 0))
  · intro src dst q source destination h1 h2 h3 h4 hfs hfd hbal
    simp [api_move, h1, h2, h3, h4, hfs, hfd, hbal]
  · intro dst q destination h1 hfd hcash
    simp [api_deposit, h1, hfd, hcash]
  · intro src q source h1 hfs hbal
    simp [api_withdraw, h1, hfs, hbal]

/-- Witness for C2 on a concrete state: an over-balance transfer is
rejected with an insufficient-funds error and the state is unchanged. -/
theorem C2_no_overdraft_witness :
    let st : BankState := ⟨400, some ⟨"Checking Account", 100, false⟩, none⟩
    (api_move st "checking" "hand" (some 1000)).error ≠ none →
    (api_move st "checking" "hand" (some 1000)).state = st := by
  intro st
  exact ((C2_no_overdraft st
    ⟨⟨40000, by norm_num⟩,
      fun a ha => by rw [Option.some_inj] at ha; rw [← ha]; exact ⟨10000, by norm_num⟩,
      fun a ha => by cases ha⟩
    ⟨by norm_num,
      fun a ha => by rw [Option.some_inj] at ha; rw [← ha]; norm_num,
      fun a ha => by cases ha⟩).1 "checking" "hand" (some 1000)).1
